import Mathlib

/-!
STM32F4 character-LCD driver (Mazidi, program 3-2)

A shallow embedding of `p3_2.c`: the 8-bit HD44780 driver that polls the busy
flag of the status register.  Port C (PC0-PC7) is the data bus, PB5/PB6/PB7
are R/S, R/W and EN.

The memory-mapped registers the program touches are kept in `Regs`.  Every
statement of the program that accesses a register (or calls `delayMs`) is an
`Access`; `Access.apply` gives its effect on the registers and `exec` performs
it on the machine, recording the access together with the register file before
and after it.  The values the program reads from `GPIOC->IDR` come from a
stream carried by the machine.  The only unbounded loop of the program, the
busy-flag poll of `LCD_ready`, takes a bound on its number of iterations and
returns `none` when the bound is exhausted.
-/

namespace Mazidi

/-! ## Constants of the program -/

/-- PB5 mask for reg select. -/
def RS : Nat := 0x20
/-- PB6 mask for read/write. -/
def RW : Nat := 0x40
/-- PB7 mask for enable. -/
def EN : Nat := 0x80

/-- The C operator `~` on a 32-bit operand. -/
def not32 (x : Nat) : Nat := 0xFFFFFFFF ^^^ x

/-! ## Registers -/

/-- The peripheral registers written by the program (32-bit values). -/
structure Regs where
  RCC_AHB1ENR : Nat
  GPIOB_MODER : Nat
  GPIOB_ODR : Nat
  GPIOC_MODER : Nat
  GPIOC_ODR : Nat
  deriving DecidableEq, Repr

/-- Effect of a write of `v` to a GPIO bit set/reset register on the output data
register of the port: bits 0-15 of `v` set the pin, bits 16-31 reset it, and
set has priority when both are given. -/
def bsrr (v odr : Nat) : Nat :=
  (odr &&& (0xFFFF ^^^ ((v >>> 16) &&& 0xFFFF))) ||| (v &&& 0xFFFF)

/-- One statement of the program that touches the hardware, or a call of
`delayMs`. The read of the input register carries the value that was read. -/
inductive Access where
  /-- The statement `RCC->AHB1ENR |= v`. -/
  | RCC_AHB1ENR_or (v : Nat)
  /-- The statement `GPIOB->MODER &= v`. -/
  | GPIOB_MODER_and (v : Nat)
  /-- The statement `GPIOB->MODER |= v`. -/
  | GPIOB_MODER_or (v : Nat)
  /-- The statement `GPIOB->BSRR = v`. -/
  | GPIOB_BSRR (v : Nat)
  /-- The statement `GPIOC->MODER &= v`. -/
  | GPIOC_MODER_and (v : Nat)
  /-- The statement `GPIOC->MODER |= v`. -/
  | GPIOC_MODER_or (v : Nat)
  /-- The statement `GPIOC->ODR = v`. -/
  | GPIOC_ODR (v : Nat)
  /-- The read `... = GPIOC->IDR`, the value read being `v`. -/
  | GPIOC_IDR (v : Nat)
  /-- The call `delayMs(n)`. -/
  | delayMs (n : Int)
  deriving DecidableEq, Repr

/-- Effect of an access on the register file. -/
def Access.apply : Access → Regs → Regs
  | .RCC_AHB1ENR_or v, r => { r with RCC_AHB1ENR := r.RCC_AHB1ENR ||| v }
  | .GPIOB_MODER_and v, r => { r with GPIOB_MODER := r.GPIOB_MODER &&& v }
  | .GPIOB_MODER_or v, r => { r with GPIOB_MODER := r.GPIOB_MODER ||| v }
  | .GPIOB_BSRR v, r => { r with GPIOB_ODR := bsrr v r.GPIOB_ODR }
  | .GPIOC_MODER_and v, r => { r with GPIOC_MODER := r.GPIOC_MODER &&& v }
  | .GPIOC_MODER_or v, r => { r with GPIOC_MODER := r.GPIOC_MODER ||| v }
  | .GPIOC_ODR v, r => { r with GPIOC_ODR := v }
  | .GPIOC_IDR _, r => r
  | .delayMs _, r => r

/-- Level of the R/S line (PB5). -/
def Regs.rs (r : Regs) : Bool := r.GPIOB_ODR.testBit 5
/-- Level of the R/W line (PB6). -/
def Regs.rw (r : Regs) : Bool := r.GPIOB_ODR.testBit 6
/-- Level of the EN line (PB7). -/
def Regs.en (r : Regs) : Bool := r.GPIOB_ODR.testBit 7
/-- The byte driven on D0-D7 (PC0-PC7). -/
def Regs.bus (r : Regs) : Nat := r.GPIOC_ODR % 256
/-- PC0-PC7 are all general purpose outputs: mode field `01` for each pin. -/
def Regs.busOutput (r : Regs) : Prop := r.GPIOC_MODER &&& 0xFFFF = 0x5555
/-- PC0-PC7 are all inputs: mode field `00` for each pin. -/
def Regs.busInput (r : Regs) : Prop := r.GPIOC_MODER &&& 0xFFFF = 0

instance (r : Regs) : Decidable r.busOutput := by unfold Regs.busOutput; infer_instance
instance (r : Regs) : Decidable r.busInput := by unfold Regs.busInput; infer_instance

/-! ## The machine -/

/-- One executed access with the register file before and after it. -/
structure Step where
  pre : Regs
  acc : Access
  post : Regs
  deriving DecidableEq, Repr

/-- State of the program: the registers, the stream of values that successive
reads of `GPIOC->IDR` return, the number of reads done, and the accesses
executed so far. -/
structure Machine where
  regs : Regs
  idr : Nat → Nat
  reads : Nat
  log : List Step

/-- Execute one access. -/
def exec (a : Access) (m : Machine) : Machine :=
  { m with regs := a.apply m.regs, log := m.log ++ [⟨m.regs, a, a.apply m.regs⟩] }

/-- Read the 32-bit register `GPIOC->IDR`: the next value of the stream. -/
def read_GPIOC_IDR (m : Machine) : Nat × Machine :=
  let v := m.idr m.reads % 2 ^ 32
  (v, { exec (.GPIOC_IDR v) m with reads := m.reads + 1 })

/-- Value of a `char` holding the low byte of `v`, promoted to `int` and given
as a 32-bit two's complement pattern: zero extended when plain `char` is
unsigned, sign extended when it is signed. -/
def charValue (charSigned : Bool) (v : Nat) : Nat :=
  let b := v % 256
  if charSigned && decide (128 ≤ b) then b ||| 0xFFFFFF00 else b

/-! ## The program -/

/-- The function `delayMs`: for `n > 0` its two nested loops run `n * 3195` empty
iterations, for `n ≤ 0` none; they touch no register, so the call is recorded and
the registers are left as they are. -/
def delayMs (n : Int) (m : Machine) : Machine :=
  exec (.delayMs n) m

/-- The function `PORTS_init`. -/
def PORTS_init (m : Machine) : Machine :=
  let m := exec (.RCC_AHB1ENR_or 0x06) m
  let m := exec (.GPIOB_MODER_and (not32 0x0000FC00)) m
  let m := exec (.GPIOB_MODER_or 0x00005400) m
  let m := exec (.GPIOB_BSRR 0x00C00000) m
  let m := exec (.GPIOC_MODER_and (not32 0x0000FFFF)) m
  let m := exec (.GPIOC_MODER_or 0x00005555) m
  m

/-- The `do ... while (status & 0x80)` loop of `LCD_ready`, for at most `fuel`
iterations. -/
def LCD_ready_loop (charSigned : Bool) : Nat → Machine → Option Machine
  | 0, _ => none
  | fuel + 1, m =>
    let m := exec (.GPIOB_BSRR EN) m
    let m := delayMs 0 m
    let (v, m) := read_GPIOC_IDR m
    let status := charValue charSigned v
    let m := exec (.GPIOB_BSRR (EN <<< 16)) m
    let m := delayMs 0 m
    if status &&& 0x80 ≠ 0 then LCD_ready_loop charSigned fuel m else some m

/-- The function `LCD_ready`; `fuel` bounds the iterations of its loop. -/
def LCD_ready (charSigned : Bool) (fuel : Nat) (m : Machine) : Option Machine :=
  let m := exec (.GPIOC_MODER_and (not32 0x0000FFFF)) m
  let m := exec (.GPIOB_BSRR (RS <<< 16)) m
  let m := exec (.GPIOB_BSRR RW) m
  match LCD_ready_loop charSigned fuel m with
  | none => none
  | some m =>
    let m := exec (.GPIOB_BSRR (RW <<< 16)) m
    let m := exec (.GPIOC_MODER_or 0x00005555) m
    some m

/-- The function `LCD_command`; the parameter is an `unsigned char`. -/
def LCD_command (charSigned : Bool) (fuel : Nat) (command : Nat) (m : Machine) :
    Option Machine :=
  match LCD_ready charSigned fuel m with
  | none => none
  | some m =>
    let m := exec (.GPIOB_BSRR ((RS ||| RW) <<< 16)) m
    let m := exec (.GPIOC_ODR (command % 256)) m
    let m := exec (.GPIOB_BSRR EN) m
    let m := delayMs 0 m
    let m := exec (.GPIOB_BSRR (EN <<< 16)) m
    some m

/-- The function `LCD_command_noPoll`; the parameter is an `unsigned char`. -/
def LCD_command_noPoll (command : Nat) (m : Machine) : Machine :=
  let m := exec (.GPIOB_BSRR ((RS ||| RW) <<< 16)) m
  let m := exec (.GPIOC_ODR (command % 256)) m
  let m := exec (.GPIOB_BSRR EN) m
  let m := delayMs 0 m
  let m := exec (.GPIOB_BSRR (EN <<< 16)) m
  m

/-- The function `LCD_data`; the parameter is a plain `char`, converted to the 32-bit
register value on the write to `GPIOC->ODR`. -/
def LCD_data (charSigned : Bool) (fuel : Nat) (data : Nat) (m : Machine) :
    Option Machine :=
  match LCD_ready charSigned fuel m with
  | none => none
  | some m =>
    let m := exec (.GPIOB_BSRR RS) m
    let m := exec (.GPIOB_BSRR (RW <<< 16)) m
    let m := exec (.GPIOC_ODR (charValue charSigned data)) m
    let m := exec (.GPIOB_BSRR EN) m
    let m := delayMs 0 m
    let m := exec (.GPIOB_BSRR (EN <<< 16)) m
    some m

/-- The function `LCD_init`. -/
def LCD_init (charSigned : Bool) (fuel : Nat) (m : Machine) : Option Machine := do
  let m := PORTS_init m
  let m := delayMs 30 m
  let m := LCD_command_noPoll 0x30 m
  let m := delayMs 10 m
  let m := LCD_command_noPoll 0x30 m
  let m := delayMs 1 m
  let m := LCD_command_noPoll 0x30 m
  let m ← LCD_command charSigned fuel 0x38 m
  let m ← LCD_command charSigned fuel 0x06 m
  let m ← LCD_command charSigned fuel 0x01 m
  let m ← LCD_command charSigned fuel 0x0F m
  pure m

/-- One iteration of the body of `while(1)` in `main`. -/
def main_body (charSigned : Bool) (fuel : Nat) (m : Machine) : Option Machine := do
  let m ← LCD_data charSigned fuel 'H'.toNat m
  let m ← LCD_data charSigned fuel 'e'.toNat m
  let m ← LCD_data charSigned fuel 'l'.toNat m
  let m ← LCD_data charSigned fuel 'l'.toNat m
  let m ← LCD_data charSigned fuel 'o'.toNat m
  let m := delayMs 500 m
  let m ← LCD_command charSigned fuel 1 m
  let m := delayMs 500 m
  pure m

/-- The first `n` iterations of `while(1)` in `main`. -/
def main_loop (charSigned : Bool) (fuel : Nat) : Nat → Machine → Option Machine
  | 0, m => some m
  | n + 1, m =>
    match main_body charSigned fuel m with
    | none => none
    | some m => main_loop charSigned fuel n m

/-- The function `main`, run up to the end of the `n`-th iteration of its loop. -/
def main (charSigned : Bool) (fuel : Nat) (n : Nat) (m : Machine) : Option Machine :=
  match LCD_init charSigned fuel m with
  | none => none
  | some m => main_loop charSigned fuel n m

/-- A machine at reset: registers zero, nothing logged yet. -/
def Machine.start (idr : Nat → Nat) : Machine :=
  { regs := ⟨0, 0, 0, 0, 0⟩, idr := idr, reads := 0, log := [] }

/-! ## Traces -/

/-- The steps taken when the accesses `l` are executed in order from `r`. -/
def stepsOf : Regs → List Access → List Step
  | _, [] => []
  | r, a :: l => ⟨r, a, a.apply r⟩ :: stepsOf (a.apply r) l

/-- The register file after the accesses `l` are executed in order from `r`. -/
def replay : Regs → List Access → Regs
  | r, [] => r
  | r, a :: l => replay (a.apply r) l

/-- Number of reads of `GPIOC->IDR` among the accesses. -/
def readCount : List Access → Nat
  | [] => 0
  | .GPIOC_IDR _ :: l => readCount l + 1
  | _ :: l => readCount l

/-- The accesses of a log, in order. -/
def accesses (log : List Step) : List Access := log.map Step.acc

/-- The values returned by the `n` reads of `GPIOC->IDR` that start with read
number `p` of the stream. -/
def samples (idr : Nat → Nat) : Nat → Nat → List Nat
  | _, 0 => []
  | p, n + 1 => (idr p % 2 ^ 32) :: samples idr (p + 1) n

/-- From read number `p` on, the stream has bit 7 set in exactly the next `k`
values and clear in the one after them. -/
def busyFor (idr : Nat → Nat) (p k : Nat) : Prop :=
  (∀ j, j < k → (idr (p + j)).testBit 7 = true) ∧ (idr (p + k)).testBit 7 = false

/-- Whatever read the program has reached, some later read finds bit 7 clear. -/
def EventuallyReady (idr : Nat → Nat) : Prop :=
  ∀ p, ∃ k, (idr (p + k)).testBit 7 = false

/-- Accesses of one iteration of the poll loop that samples `v`. -/
def pollCycle (v : Nat) : List Access :=
  [.GPIOB_BSRR EN, .delayMs 0, .GPIOC_IDR v, .GPIOB_BSRR (EN <<< 16), .delayMs 0]

/-- Accesses of successive iterations of the poll loop, one per sampled value. -/
def pollCycles : List Nat → List Access
  | [] => []
  | v :: w => pollCycle v ++ pollCycles w

/-- Accesses of one call of `LCD_ready` whose poll cycles sample the values `w`. -/
def readyAccesses (w : List Nat) : List Access :=
  [.GPIOC_MODER_and 0xFFFF0000, .GPIOB_BSRR 0x200000, .GPIOB_BSRR 0x40]
    ++ pollCycles w ++ [.GPIOB_BSRR 0x400000, .GPIOC_MODER_or 0x5555]

/-- Accesses of the write cycle of a command byte `c`. -/
def commandCycle (c : Nat) : List Access :=
  [.GPIOB_BSRR 0x600000, .GPIOC_ODR c, .GPIOB_BSRR 0x80, .delayMs 0, .GPIOB_BSRR 0x800000]

/-- Accesses of the write cycle of a data byte `d`. -/
def dataCycle (d : Nat) : List Access :=
  [.GPIOB_BSRR 0x20, .GPIOB_BSRR 0x400000, .GPIOC_ODR d, .GPIOB_BSRR 0x80, .delayMs 0,
    .GPIOB_BSRR 0x800000]

/-- Accesses of `PORTS_init`. -/
def portsAccesses : List Access :=
  [.RCC_AHB1ENR_or 0x06, .GPIOB_MODER_and 0xFFFF03FF, .GPIOB_MODER_or 0x5400,
    .GPIOB_BSRR 0xC00000, .GPIOC_MODER_and 0xFFFF0000, .GPIOC_MODER_or 0x5555]

/-- The machine `m'` is reached from `m` by executing exactly the accesses `l`,
the reads among them consuming the stream in order. -/
structure Runs (m : Machine) (l : List Access) (m' : Machine) : Prop where
  idr : m'.idr = m.idr
  regs : m'.regs = replay m.regs l
  log : m'.log = m.log ++ stepsOf m.regs l
  reads : m'.reads = m.reads + readCount l

/-- The machine after one iteration of the poll loop. -/
def pollOnce (m : Machine) : Machine :=
  delayMs 0 (exec (.GPIOB_BSRR (EN <<< 16)) (read_GPIOC_IDR (delayMs 0 (exec (.GPIOB_BSRR EN) m))).2)

/-- The statements of `LCD_ready` before its loop. -/
def readyEnter (m : Machine) : Machine :=
  exec (.GPIOB_BSRR RW) (exec (.GPIOB_BSRR (RS <<< 16)) (exec (.GPIOC_MODER_and (not32 0x0000FFFF)) m))

/-- The statements of `LCD_ready` after its loop. -/
def readyLeave (m : Machine) : Machine :=
  exec (.GPIOC_MODER_or 0x00005555) (exec (.GPIOB_BSRR (RW <<< 16)) m)

/-- The statements of `LCD_data` after its call of `LCD_ready`. -/
def dataWrite (sc : Bool) (data : Nat) (m : Machine) : Machine :=
  exec (.GPIOB_BSRR (EN <<< 16)) (delayMs 0 (exec (.GPIOB_BSRR EN)
    (exec (.GPIOC_ODR (charValue sc data)) (exec (.GPIOB_BSRR (RW <<< 16))
      (exec (.GPIOB_BSRR RS) m)))))

/-! ## Notions used by the properties -/

/-- Configuring the data bus as output: the statements
`GPIOC->MODER &= ~0x0000FFFF; GPIOC->MODER |= 0x00005555;`, as in `PORTS_init`
and, around its loop, in `LCD_ready`. -/
def busConfigOutput (r : Regs) : Regs :=
  replay r [.GPIOC_MODER_and (not32 0x0000FFFF), .GPIOC_MODER_or 0x00005555]

/-- Configuring the data bus as input: the statement
`GPIOC->MODER &= ~0x0000FFFF;`, as at the start of `LCD_ready`. -/
def busConfigInput (r : Regs) : Regs :=
  replay r [.GPIOC_MODER_and (not32 0x0000FFFF)]

/-- The access drives EN (PB7) high. -/
def Access.assertsEN : Access → Bool
  | .GPIOB_BSRR v => v.testBit 7
  | _ => false

/-- The access drives EN (PB7) low. -/
def Access.deassertsEN : Access → Bool
  | .GPIOB_BSRR v => !v.testBit 7 && v.testBit 23
  | _ => false

/-- The access is a write that sets or clears R/S (PB5) or R/W (PB6). -/
def Access.writesRSRW : Access → Bool
  | .GPIOB_BSRR v => v.testBit 5 || v.testBit 21 || v.testBit 6 || v.testBit 22
  | _ => false

/-- Number of enable pulses among the accesses, EN being high at the start or
not: each time EN is driven low after it was driven high counts as one. -/
def enPulsesFrom : Bool → List Access → Nat
  | _, [] => 0
  | high, a :: l =>
    if a.assertsEN then enPulsesFrom true l
    else if a.deassertsEN then (if high then 1 else 0) + enPulsesFrom false l
    else enPulsesFrom high l

/-- Number of enable pulses (EN set, then EN cleared) among the accesses. -/
def enPulses (l : List Access) : Nat := enPulsesFrom false l

/-- A status stream that reads busy in its first `n` values and ready afterwards. -/
def busyThenReady (n : Nat) : Nat → Nat := fun i => if i < n then 0x80 else 0x00

/-- Accesses of `LCD_init` whose four readiness waits sample `w₁`, `w₂`, `w₃`
and `w₄`. -/
def initAccesses (w₁ w₂ w₃ w₄ : List Nat) : List Access :=
  portsAccesses ++ [.delayMs 30] ++ commandCycle 0x30 ++ [.delayMs 10] ++ commandCycle 0x30
    ++ [.delayMs 1] ++ commandCycle 0x30
    ++ readyAccesses w₁ ++ commandCycle 0x38
    ++ readyAccesses w₂ ++ commandCycle 0x06
    ++ readyAccesses w₃ ++ commandCycle 0x01
    ++ readyAccesses w₄ ++ commandCycle 0x0F

/-- Accesses of one iteration of the loop of `main` whose six readiness waits
sample `w₁` to `w₆`. -/
def bodyAccesses (w₁ w₂ w₃ w₄ w₅ w₆ : List Nat) : List Access :=
  readyAccesses w₁ ++ dataCycle 0x48
    ++ readyAccesses w₂ ++ dataCycle 0x65
    ++ readyAccesses w₃ ++ dataCycle 0x6C
    ++ readyAccesses w₄ ++ dataCycle 0x6C
    ++ readyAccesses w₅ ++ dataCycle 0x6F
    ++ [.delayMs 500]
    ++ readyAccesses w₆ ++ commandCycle 0x01
    ++ [.delayMs 500]

/-- The statements of `LCD_init` before its first call of `LCD_command`. -/
def initBoot (m : Machine) : Machine :=
  LCD_command_noPoll 0x30 (delayMs 1 (LCD_command_noPoll 0x30 (delayMs 10
    (LCD_command_noPoll 0x30 (delayMs 30 (PORTS_init m))))))

/-- Accesses of `LCD_init` before its first call of `LCD_command`. -/
def bootAccesses : List Access :=
  portsAccesses ++ [.delayMs 30] ++ commandCycle 0x30 ++ [.delayMs 10] ++ commandCycle 0x30
    ++ [.delayMs 1] ++ commandCycle 0x30

/-- With a large enough bound on its poll loops the operation returns `m'`. -/
def Returns (f : Nat → Option Machine) (m' : Machine) : Prop :=
  ∃ F, ∀ fuel, F ≤ fuel → f fuel = some m'

/-- On return the data bus is driven again: PC0-PC7 are outputs, bits 16-31 of
the port C mode register are as they were in `r`, and R/W is low. -/
def busRestored (r r' : Regs) : Prop :=
  r'.GPIOC_MODER &&& 0xFFFF = 0x5555 ∧
    r'.GPIOC_MODER &&& 0xFFFF0000 = r.GPIOC_MODER &&& 0xFFFF0000 ∧ r'.rw = false

instance (idr : Nat → Nat) (p k : Nat) : Decidable (busyFor idr p k) := by
  unfold busyFor; infer_instance

/-- A machine whose port C is in input mode, with other bits set in the upper
half of its mode register, and whose control lines are all high. -/
def Machine.inputMode (idr : Nat → Nat) : Machine :=
  { regs := ⟨0, 0, 0xE0, 0xABCD0000, 0xFF⟩, idr := idr, reads := 0, log := [] }

/-- The access is a write that sets R/W (PB6). -/
def Access.raisesRW : Access → Bool
  | .GPIOB_BSRR v => v.testBit 6
  | _ => false

/-- The access switches pins of port C to output mode. -/
def Access.drivesBus : Access → Bool
  | .GPIOC_MODER_or _ => true
  | _ => false

/-- R/S and R/W are not written while EN is high: a write that sets or clears
one of them is made with EN low. -/
def Step.controlStable (s : Step) : Prop :=
  s.acc.writesRSRW = true → s.pre.en = false

/-- No contention on the data bus: before and after the access, whenever R/W is
high the pins PC0-PC7 are inputs. -/
def Step.noContention (s : Step) : Prop :=
  (s.pre.rw = true → s.pre.busInput) ∧ (s.post.rw = true → s.post.busInput)

/-- The bus is turned around in the safe order: R/W is raised only when
PC0-PC7 are already inputs, and the pins are switched back to output only
when R/W is already low. -/
def Step.turnaroundOrdered (s : Step) : Prop :=
  (s.acc.raisesRW = true → s.pre.busInput) ∧ (s.acc.drivesBus = true → s.pre.rw = false)

/-- The three step properties together. -/
def Step.good (s : Step) : Prop :=
  s.controlStable ∧ s.noContention ∧ s.turnaroundOrdered

/-- Before any other write of EN, R/S or R/W, the accesses drive EN low. -/
def closesPulse : List Access → Bool
  | [] => false
  | a :: l =>
    if a.writesRSRW || a.assertsEN then false
    else if a.deassertsEN then true
    else closesPulse l

/-- Every access that drives EN high is followed by one that drives EN low, with
no write of R/S or R/W (and no other write of EN) in between. -/
def pulsesClosed : List Access → Bool
  | [] => true
  | a :: l => (!a.assertsEN || closesPulse l) && pulsesClosed l

/-- The state between operations: EN and R/W low, PC0-PC7 outputs. -/
def Idle (r : Regs) : Prop :=
  r.en = false ∧ r.rw = false ∧ r.busOutput

/-- The state between poll cycles: EN low, R/W high, PC0-PC7 inputs. -/
def Reading (r : Regs) : Prop :=
  r.en = false ∧ r.rw = true ∧ r.busInput

/-- Executed from `r`, the accesses `l` take only good steps, close every enable
pulse they open and end in the idle state. -/
def GoodFrom (r : Regs) (l : List Access) : Prop :=
  (∀ s ∈ stepsOf r l, s.good) ∧ pulsesClosed l = true ∧ Idle (replay r l)

/-- The first four accesses of `PORTS_init`, up to the write that turns EN off. -/
def portsHead : List Access :=
  [.RCC_AHB1ENR_or 0x06, .GPIOB_MODER_and 0xFFFF03FF, .GPIOB_MODER_or 0x5400,
    .GPIOB_BSRR 0xC00000]

/-- The last two accesses of `PORTS_init`. -/
def portsTail : List Access :=
  [.GPIOC_MODER_and 0xFFFF0000, .GPIOC_MODER_or 0x5555]

/-- The transfers the program makes to the controller: for each access that
drives EN high while R/W is low, the level of R/S and the byte on D0-D7. -/
def latched : List Step → List (Bool × Nat)
  | [] => []
  | s :: l =>
    if s.acc.assertsEN && !s.post.rw then (s.post.rs, s.post.bus) :: latched l
    else latched l

/-- The list `l` repeated `n` times. -/
def iterated {α : Type} (l : List α) : Nat → List α
  | 0 => []
  | n + 1 => l ++ iterated l n

/-- Accesses of `LCD_init` after those of `PORTS_init`. -/
def initRest (w₁ w₂ w₃ w₄ : List Nat) : List Access :=
  [.delayMs 30] ++ commandCycle 0x30 ++ [.delayMs 10] ++ commandCycle 0x30
    ++ [.delayMs 1] ++ commandCycle 0x30
    ++ readyAccesses w₁ ++ commandCycle 0x38
    ++ readyAccesses w₂ ++ commandCycle 0x06
    ++ readyAccesses w₃ ++ commandCycle 0x01
    ++ readyAccesses w₄ ++ commandCycle 0x0F

/-- The transfers of one iteration of the loop of `main`: the five characters
of "Hello" as data, then the clear-display command. -/
def helloThenClear : List (Bool × Nat) :=
  [(true, 0x48), (true, 0x65), (true, 0x6C), (true, 0x6C), (true, 0x6F), (false, 0x01)]

/-! # Theorems -/

/-! ## Basic facts about traces -/

theorem stepsOf_append (r : Regs) (l₁ l₂ : List Access) :
    stepsOf r (l₁ ++ l₂) = stepsOf r l₁ ++ stepsOf (replay r l₁) l₂ := by
  induction l₁ generalizing r with
  | nil => rfl
  | cons a l ih => simp [stepsOf, replay, ih]

theorem replay_append (r : Regs) (l₁ l₂ : List Access) :
    replay r (l₁ ++ l₂) = replay (replay r l₁) l₂ := by
  induction l₁ generalizing r with
  | nil => rfl
  | cons a l ih => simp [replay, ih]

theorem readCount_append (l₁ l₂ : List Access) :
    readCount (l₁ ++ l₂) = readCount l₁ + readCount l₂ := by
  induction l₁ with
  | nil => simp [readCount]
  | cons a l ih => cases a <;> simp [readCount, ih]; omega

theorem accesses_stepsOf (r : Regs) (l : List Access) : accesses (stepsOf r l) = l := by
  induction l generalizing r with
  | nil => rfl
  | cons a l ih => simpa [accesses, stepsOf] using ih (a.apply r)

theorem accesses_append (l₁ l₂ : List Step) :
    accesses (l₁ ++ l₂) = accesses l₁ ++ accesses l₂ := by
  simp [accesses]

theorem Runs.refl (m : Machine) : Runs m [] m :=
  ⟨rfl, rfl, by simp [stepsOf], rfl⟩

theorem Runs.trans {m₁ m₂ m₃ : Machine} {l₁ l₂ : List Access}
    (h₁ : Runs m₁ l₁ m₂) (h₂ : Runs m₂ l₂ m₃) : Runs m₁ (l₁ ++ l₂) m₃ := by
  refine ⟨h₂.idr.trans h₁.idr, ?_, ?_, ?_⟩
  · rw [h₂.regs, h₁.regs, replay_append]
  · rw [h₂.log, h₁.log, h₁.regs, stepsOf_append, List.append_assoc]
  · rw [h₂.reads, h₁.reads, readCount_append, Nat.add_assoc]

theorem Runs.accesses_log {m m' : Machine} {l : List Access} (h : Runs m l m') :
    accesses m'.log = accesses m.log ++ l := by
  rw [h.log, accesses_append, accesses_stepsOf]

theorem Runs.cast {m m' : Machine} {l l' : List Access} (h : Runs m l m') (e : l = l') :
    Runs m l' m' := e ▸ h

theorem PORTS_init_runs (m : Machine) : Runs m portsAccesses (PORTS_init m) :=
  ⟨rfl, rfl, by simp [PORTS_init, exec, portsAccesses, stepsOf, not32], rfl⟩

theorem delayMs_runs (n : Int) (m : Machine) : Runs m [.delayMs n] (delayMs n m) :=
  ⟨rfl, rfl, rfl, rfl⟩

theorem LCD_command_noPoll_runs (c : Nat) (m : Machine) :
    Runs m (commandCycle (c % 256)) (LCD_command_noPoll c m) :=
  ⟨rfl, rfl, by simp [LCD_command_noPoll, exec, delayMs, commandCycle, stepsOf, RS, RW, EN], rfl⟩

/-! ## The busy-flag test -/

theorem and_0x80_ne_zero (x : Nat) : (x &&& 0x80 ≠ 0) ↔ x.testBit 7 = true := by
  constructor
  · intro h
    by_contra hb
    apply h
    apply Nat.eq_of_testBit_eq
    intro i
    rw [Nat.testBit_and, Nat.zero_testBit]
    by_cases hi : i = 7
    · subst hi; simp at hb; simp [hb]
    · have : Nat.testBit 0x80 i = false := Nat.testBit_two_pow_of_ne (n := 7) (Ne.symm hi)
      simp [this]
  · intro hb h
    have h7 := congrArg (fun y => Nat.testBit y 7) h
    simp [hb] at h7
    exact absurd h7 (by decide)

theorem charValue_testBit (sc : Bool) (v : Nat) :
    (charValue sc v).testBit 7 = v.testBit 7 := by
  have h256 : (v % 256).testBit 7 = v.testBit 7 := by
    rw [show (256 : Nat) = 2 ^ 8 from rfl, Nat.testBit_mod_two_pow]; simp
  simp only [charValue]
  split
  · rw [Nat.testBit_or, h256]
    have : Nat.testBit 0xFFFFFF00 7 = false := by decide
    simp [this]
  · exact h256

/-- The loop condition `status & 0x80` is the bit 7 of the value read from the
input register, for a signed and for an unsigned `char`. -/
theorem status_busy_iff (sc : Bool) (x : Nat) :
    (charValue sc (x % 2 ^ 32) &&& 0x80 ≠ 0) ↔ x.testBit 7 = true := by
  rw [and_0x80_ne_zero, charValue_testBit, Nat.testBit_mod_two_pow]
  simp

/-! ## The poll loop -/

theorem pollOnce_runs (m : Machine) :
    Runs m (pollCycle (m.idr m.reads % 2 ^ 32)) (pollOnce m) :=
  ⟨rfl, rfl, by simp [pollOnce, read_GPIOC_IDR, exec, delayMs, pollCycle, stepsOf], rfl⟩

theorem LCD_ready_loop_succ (sc : Bool) (fuel : Nat) (m : Machine) :
    LCD_ready_loop sc (fuel + 1) m =
      if charValue sc (m.idr m.reads % 2 ^ 32) &&& 0x80 ≠ 0
      then LCD_ready_loop sc fuel (pollOnce m) else some (pollOnce m) := rfl

theorem busyFor_unique {idr : Nat → Nat} {p k k' : Nat}
    (h : busyFor idr p k) (h' : busyFor idr p k') : k = k' := by
  rcases Nat.lt_trichotomy k k' with hlt | heq | hgt
  · have := h'.1 k hlt; rw [h.2] at this; cases this
  · exact heq
  · have := h.1 k' hgt; rw [h'.2] at this; cases this

theorem busyFor_zero {idr : Nat → Nat} {p : Nat} (h : (idr p).testBit 7 = false) :
    busyFor idr p 0 :=
  ⟨fun j hj => absurd hj (Nat.not_lt_zero j), h⟩

theorem busyFor_succ {idr : Nat → Nat} {p k : Nat} (h0 : (idr p).testBit 7 = true)
    (h : busyFor idr (p + 1) k) : busyFor idr p (k + 1) := by
  refine ⟨fun j hj => ?_, ?_⟩
  · cases j with
    | zero => exact h0
    | succ j =>
      have := h.1 j (by omega)
      rwa [show p + 1 + j = p + (j + 1) by omega] at this
  · have := h.2
    rwa [show p + 1 + k = p + (k + 1) by omega] at this

theorem EventuallyReady.busyFor {idr : Nat → Nat} (h : EventuallyReady idr) (p : Nat) :
    ∃ k, busyFor idr p k := by
  classical
  have hex := h p
  refine ⟨Nat.find hex, fun j hj => ?_, Nat.find_spec hex⟩
  have := Nat.find_min hex hj
  simpa using this

/-- What the poll loop does: a result comes from the first read with bit 7 clear,
after one cycle per read; no result means every read within the bound had
bit 7 set. -/
theorem LCD_ready_loop_spec (sc : Bool) : ∀ (fuel : Nat) (m : Machine),
    (∀ m', LCD_ready_loop sc fuel m = some m' →
      ∃ k, k < fuel ∧ busyFor m.idr m.reads k ∧
        Runs m (pollCycles (samples m.idr m.reads (k + 1))) m') ∧
    (LCD_ready_loop sc fuel m = none →
      ∀ j, j < fuel → (m.idr (m.reads + j)).testBit 7 = true) := by
  intro fuel
  induction fuel with
  | zero =>
    intro m
    exact ⟨fun m' h => by simp [LCD_ready_loop] at h, fun _ j hj => absurd hj (Nat.not_lt_zero j)⟩
  | succ fuel ih =>
    intro m
    have hr := pollOnce_runs m
    rw [LCD_ready_loop_succ]
    by_cases hb : (m.idr m.reads).testBit 7 = true
    · rw [if_pos ((status_busy_iff sc _).2 hb)]
      have hreads : (pollOnce m).reads = m.reads + 1 := hr.reads
      have hidr : (pollOnce m).idr = m.idr := hr.idr
      obtain ⟨ih1, ih2⟩ := ih (pollOnce m)
      rw [hreads, hidr] at ih1 ih2
      constructor
      · intro m' hm'
        obtain ⟨k, hk, hbusy, hruns⟩ := ih1 m' hm'
        exact ⟨k + 1, by omega, busyFor_succ hb hbusy, hr.trans hruns⟩
      · intro hnone j hj
        cases j with
        | zero => exact hb
        | succ j =>
          have := ih2 hnone j (by omega)
          rwa [show m.reads + 1 + j = m.reads + (j + 1) by omega] at this
    · rw [if_neg (fun h => hb ((status_busy_iff sc _).1 h))]
      constructor
      · intro m' hm'
        cases hm'
        refine ⟨0, by omega, busyFor_zero (by simpa using hb), ?_⟩
        simpa [samples, pollCycles] using hr
      · intro h; cases h

theorem LCD_ready_loop_returns (sc : Bool) {fuel k : Nat} {m : Machine}
    (hb : busyFor m.idr m.reads k) (hk : k < fuel) :
    ∃ m', LCD_ready_loop sc fuel m = some m' ∧
      Runs m (pollCycles (samples m.idr m.reads (k + 1))) m' := by
  obtain ⟨h1, h2⟩ := LCD_ready_loop_spec sc fuel m
  cases hres : LCD_ready_loop sc fuel m with
  | none =>
    have := h2 hres k hk
    rw [hb.2] at this; cases this
  | some m' =>
    obtain ⟨k', _, hb', hruns⟩ := h1 m' hres
    cases busyFor_unique hb hb'
    exact ⟨m', rfl, hruns⟩

/-! ## The operations as runs of accesses -/

theorem LCD_ready_eq (sc : Bool) (fuel : Nat) (m : Machine) :
    LCD_ready sc fuel m = (LCD_ready_loop sc fuel (readyEnter m)).map readyLeave := by
  unfold LCD_ready
  show (match LCD_ready_loop sc fuel (readyEnter m) with
    | none => none
    | some m => some (readyLeave m)) = _
  cases LCD_ready_loop sc fuel (readyEnter m) <;> rfl

theorem LCD_command_eq (sc : Bool) (fuel c : Nat) (m : Machine) :
    LCD_command sc fuel c m = (LCD_ready sc fuel m).map (LCD_command_noPoll c) := by
  unfold LCD_command
  cases LCD_ready sc fuel m <;> rfl

theorem LCD_data_eq (sc : Bool) (fuel d : Nat) (m : Machine) :
    LCD_data sc fuel d m = (LCD_ready sc fuel m).map (dataWrite sc d) := by
  unfold LCD_data
  cases LCD_ready sc fuel m <;> rfl

theorem readyEnter_runs (m : Machine) :
    Runs m [.GPIOC_MODER_and 0xFFFF0000, .GPIOB_BSRR 0x200000, .GPIOB_BSRR 0x40]
      (readyEnter m) :=
  ⟨rfl, rfl, by simp [readyEnter, exec, stepsOf, not32, RS, RW], rfl⟩

theorem readyLeave_runs (m : Machine) :
    Runs m [.GPIOB_BSRR 0x400000, .GPIOC_MODER_or 0x5555] (readyLeave m) :=
  ⟨rfl, rfl, by simp [readyLeave, exec, stepsOf, RW], rfl⟩

theorem dataWrite_runs (sc : Bool) (d : Nat) (m : Machine) :
    Runs m (dataCycle (charValue sc d)) (dataWrite sc d m) :=
  ⟨rfl, rfl, by simp [dataWrite, exec, delayMs, dataCycle, stepsOf, RS, RW, EN], rfl⟩

/-- What `LCD_ready` does: a result comes from the first read with bit 7 clear;
no result means every read within the bound had bit 7 set. -/
theorem LCD_ready_spec (sc : Bool) (fuel : Nat) (m : Machine) :
    (∀ m', LCD_ready sc fuel m = some m' →
      ∃ k, k < fuel ∧ busyFor m.idr m.reads k ∧
        Runs m (readyAccesses (samples m.idr m.reads (k + 1))) m') ∧
    (LCD_ready sc fuel m = none →
      ∀ j, j < fuel → (m.idr (m.reads + j)).testBit 7 = true) := by
  have he := readyEnter_runs m
  obtain ⟨h1, h2⟩ := LCD_ready_loop_spec sc fuel (readyEnter m)
  rw [he.idr, show (readyEnter m).reads = m.reads from he.reads] at h1 h2
  rw [LCD_ready_eq]
  constructor
  · intro m' hm'
    cases hl : LCD_ready_loop sc fuel (readyEnter m) with
    | none => rw [hl] at hm'; cases hm'
    | some m₁ =>
      rw [hl] at hm'
      cases hm'
      obtain ⟨k, hk, hb, hruns⟩ := h1 m₁ hl
      exact ⟨k, hk, hb, (he.trans hruns).trans (readyLeave_runs m₁)⟩
  · intro hnone
    cases hl : LCD_ready_loop sc fuel (readyEnter m) with
    | none => exact h2 hl
    | some m₁ => rw [hl] at hnone; cases hnone

theorem LCD_ready_returns (sc : Bool) {fuel k : Nat} {m : Machine}
    (hb : busyFor m.idr m.reads k) (hk : k < fuel) :
    ∃ m', LCD_ready sc fuel m = some m' ∧
      Runs m (readyAccesses (samples m.idr m.reads (k + 1))) m' := by
  obtain ⟨h1, h2⟩ := LCD_ready_spec sc fuel m
  cases hres : LCD_ready sc fuel m with
  | none =>
    have := h2 hres k hk
    rw [hb.2] at this; cases this
  | some m' =>
    obtain ⟨k', _, hb', hruns⟩ := h1 m' hres
    cases busyFor_unique hb hb'
    exact ⟨m', rfl, hruns⟩

theorem LCD_command_spec (sc : Bool) (fuel c : Nat) (m m' : Machine)
    (h : LCD_command sc fuel c m = some m') :
    ∃ k, k < fuel ∧ busyFor m.idr m.reads k ∧
      Runs m (readyAccesses (samples m.idr m.reads (k + 1)) ++ commandCycle (c % 256)) m' := by
  rw [LCD_command_eq] at h
  cases hr : LCD_ready sc fuel m with
  | none => rw [hr] at h; cases h
  | some m₁ =>
    rw [hr] at h
    cases h
    obtain ⟨k, hk, hb, hruns⟩ := (LCD_ready_spec sc fuel m).1 m₁ hr
    exact ⟨k, hk, hb, hruns.trans (LCD_command_noPoll_runs c m₁)⟩

theorem LCD_data_spec (sc : Bool) (fuel d : Nat) (m m' : Machine)
    (h : LCD_data sc fuel d m = some m') :
    ∃ k, k < fuel ∧ busyFor m.idr m.reads k ∧
      Runs m (readyAccesses (samples m.idr m.reads (k + 1)) ++ dataCycle (charValue sc d)) m' := by
  rw [LCD_data_eq] at h
  cases hr : LCD_ready sc fuel m with
  | none => rw [hr] at h; cases h
  | some m₁ =>
    rw [hr] at h
    cases h
    obtain ⟨k, hk, hb, hruns⟩ := (LCD_ready_spec sc fuel m).1 m₁ hr
    exact ⟨k, hk, hb, hruns.trans (dataWrite_runs sc d m₁)⟩

/-! ## Bit-level facts -/

theorem bsrr_testBit (v odr i : Nat) (hi : i < 16) :
    (bsrr v odr).testBit i = (v.testBit i || (odr.testBit i && !v.testBit (i + 16))) := by
  have h : ∀ j, Nat.testBit 0xFFFF j = decide (j < 16) :=
    fun j => Nat.testBit_two_pow_sub_one 16 j
  unfold bsrr
  simp only [Nat.testBit_or, Nat.testBit_and, Nat.testBit_xor, Nat.testBit_shiftRight, h, hi]
  rw [Nat.add_comm 16 i]
  cases v.testBit i <;> cases odr.testBit i <;> cases v.testBit (i + 16) <;> simp

theorem bsrr_set {v i : Nat} (odr : Nat) (hi : i < 16) (h : v.testBit i = true) :
    (bsrr v odr).testBit i = true := by
  rw [bsrr_testBit v odr i hi, h]; rfl

theorem bsrr_clear {v i : Nat} (odr : Nat) (hi : i < 16) (h₁ : v.testBit i = false)
    (h₂ : v.testBit (i + 16) = true) : (bsrr v odr).testBit i = false := by
  rw [bsrr_testBit v odr i hi, h₁, h₂]; simp

theorem bsrr_keep {v i : Nat} (odr : Nat) (hi : i < 16) (h₁ : v.testBit i = false)
    (h₂ : v.testBit (i + 16) = false) : (bsrr v odr).testBit i = odr.testBit i := by
  rw [bsrr_testBit v odr i hi, h₁, h₂]; simp

theorem mode_and_low (x : Nat) : (x &&& 0xFFFF0000) &&& 0xFFFF = 0 := by
  rw [Nat.and_assoc, show (0xFFFF0000 : Nat) &&& 0xFFFF = 0 by decide, Nat.and_zero]

theorem mode_or_low (x : Nat) : (x ||| 0x5555) &&& 0xFFFF = (x &&& 0xFFFF) ||| 0x5555 := by
  rw [Nat.and_comm, Nat.and_or_distrib_left, Nat.and_comm,
    show (0xFFFF : Nat) &&& 0x5555 = 0x5555 by decide]

theorem mode_and_high (x : Nat) : (x &&& 0xFFFF0000) &&& 0xFFFF0000 = x &&& 0xFFFF0000 := by
  rw [Nat.and_assoc, Nat.and_self]

theorem mode_or_high (x : Nat) : (x ||| 0x5555) &&& 0xFFFF0000 = x &&& 0xFFFF0000 := by
  rw [Nat.and_comm, Nat.and_or_distrib_left, Nat.and_comm,
    show (0xFFFF0000 : Nat) &&& 0x5555 = 0 by decide, Nat.or_zero]

theorem mode_config_output (x : Nat) :
    ((x &&& 0xFFFF0000 ||| 0x5555) &&& 0xFFFF0000) ||| 0x5555 = x &&& 0xFFFF0000 ||| 0x5555 := by
  rw [mode_or_high, mode_and_high]

/-! ## Registers after the blocks of accesses -/

theorem replay_pollCycle (v : Nat) (r : Regs) :
    replay r (pollCycle v) = { r with GPIOB_ODR := bsrr 0x800000 (bsrr 0x80 r.GPIOB_ODR) } := by
  simp [pollCycle, replay, Access.apply, EN]

theorem replay_pollCycles (w : List Nat) (r : Regs) :
    (replay r (pollCycles w)).RCC_AHB1ENR = r.RCC_AHB1ENR ∧
    (replay r (pollCycles w)).GPIOB_MODER = r.GPIOB_MODER ∧
    (replay r (pollCycles w)).GPIOC_MODER = r.GPIOC_MODER ∧
    (replay r (pollCycles w)).GPIOC_ODR = r.GPIOC_ODR ∧
    (replay r (pollCycles w)).rs = r.rs ∧
    (replay r (pollCycles w)).rw = r.rw ∧
    (w ≠ [] → (replay r (pollCycles w)).en = false) ∧
    (r.en = false → (replay r (pollCycles w)).en = false) := by
  induction w generalizing r with
  | nil => simp [pollCycles, replay]
  | cons v w ih =>
    obtain ⟨h1, h2, h3, h4, h5, h6, _, h8⟩ := ih (replay r (pollCycle v))
    have hen : (replay r (pollCycle v)).en = false := by
      simp +decide [replay_pollCycle, Regs.en, bsrr_set, bsrr_clear, bsrr_keep]
    rw [pollCycles, replay_append, h1, h2, h3, h4, h5, h6, h8 hen]
    simp +decide [replay_pollCycle, Regs.rs, Regs.rw, bsrr_set, bsrr_clear, bsrr_keep]

theorem samples_length (idr : Nat → Nat) (p n : Nat) : (samples idr p n).length = n := by
  induction n generalizing p with
  | zero => rfl
  | succ n ih => simp [samples, ih]

theorem samples_ne_nil (idr : Nat → Nat) (p n : Nat) : samples idr p (n + 1) ≠ [] := by
  simp [samples]

/-- The registers after a call of `LCD_ready` that polled at least once. -/
theorem replay_readyAccesses (w : List Nat) (hw : w ≠ []) (r : Regs) :
    (replay r (readyAccesses w)).RCC_AHB1ENR = r.RCC_AHB1ENR ∧
    (replay r (readyAccesses w)).GPIOB_MODER = r.GPIOB_MODER ∧
    (replay r (readyAccesses w)).GPIOC_MODER = r.GPIOC_MODER &&& 0xFFFF0000 ||| 0x5555 ∧
    (replay r (readyAccesses w)).GPIOC_ODR = r.GPIOC_ODR ∧
    (replay r (readyAccesses w)).rs = false ∧
    (replay r (readyAccesses w)).rw = false ∧
    (replay r (readyAccesses w)).en = false := by
  have hh : replay r [.GPIOC_MODER_and 0xFFFF0000, .GPIOB_BSRR 0x200000, .GPIOB_BSRR 0x40] =
      ⟨r.RCC_AHB1ENR, r.GPIOB_MODER, bsrr 0x40 (bsrr 0x200000 r.GPIOB_ODR),
        r.GPIOC_MODER &&& 0xFFFF0000, r.GPIOC_ODR⟩ := by
    simp [replay, Access.apply]
  obtain ⟨h1, h2, h3, h4, h5, h6, h7, _⟩ := replay_pollCycles w
    ⟨r.RCC_AHB1ENR, r.GPIOB_MODER, bsrr 0x40 (bsrr 0x200000 r.GPIOB_ODR),
        r.GPIOC_MODER &&& 0xFFFF0000, r.GPIOC_ODR⟩
  have h7 := h7 hw
  simp only [Regs.rs, Regs.rw, Regs.en] at h5 h6 h7 ⊢
  simp only [readyAccesses, replay_append, hh]
  simp +decide [replay, Access.apply, bsrr_set, bsrr_clear, bsrr_keep, h1, h2, h3, h4, h5, h6, h7]

theorem replay_commandCycle (c : Nat) (r : Regs) :
    (replay r (commandCycle c)).RCC_AHB1ENR = r.RCC_AHB1ENR ∧
    (replay r (commandCycle c)).GPIOB_MODER = r.GPIOB_MODER ∧
    (replay r (commandCycle c)).GPIOC_MODER = r.GPIOC_MODER ∧
    (replay r (commandCycle c)).GPIOC_ODR = c ∧
    (replay r (commandCycle c)).rs = false ∧
    (replay r (commandCycle c)).rw = false ∧
    (replay r (commandCycle c)).en = false := by
  simp +decide [commandCycle, replay, Access.apply, Regs.rs, Regs.rw, Regs.en, bsrr_set, bsrr_clear, bsrr_keep]

theorem replay_dataCycle (d : Nat) (r : Regs) :
    (replay r (dataCycle d)).RCC_AHB1ENR = r.RCC_AHB1ENR ∧
    (replay r (dataCycle d)).GPIOB_MODER = r.GPIOB_MODER ∧
    (replay r (dataCycle d)).GPIOC_MODER = r.GPIOC_MODER ∧
    (replay r (dataCycle d)).GPIOC_ODR = d ∧
    (replay r (dataCycle d)).rs = true ∧
    (replay r (dataCycle d)).rw = false ∧
    (replay r (dataCycle d)).en = false := by
  simp +decide [dataCycle, replay, Access.apply, Regs.rs, Regs.rw, Regs.en, bsrr_set, bsrr_clear, bsrr_keep]

theorem replay_portsAccesses (r : Regs) :
    (replay r portsAccesses).GPIOC_MODER = r.GPIOC_MODER &&& 0xFFFF0000 ||| 0x5555 ∧
    (replay r portsAccesses).GPIOC_ODR = r.GPIOC_ODR ∧
    (replay r portsAccesses).rs = r.rs ∧
    (replay r portsAccesses).rw = false ∧
    (replay r portsAccesses).en = false := by
  simp +decide [portsAccesses, replay, Access.apply, Regs.rs, Regs.rw, Regs.en, bsrr_set, bsrr_clear, bsrr_keep]

/-! ## `LCD_init` and the loop of `main` as runs of accesses -/

theorem readCount_pollCycles (w : List Nat) : readCount (pollCycles w) = w.length := by
  induction w with
  | nil => rfl
  | cons v w ih => simp [pollCycles, readCount_append, ih, pollCycle, readCount]

theorem readCount_readyAccesses (w : List Nat) : readCount (readyAccesses w) = w.length := by
  simp [readyAccesses, readCount_append, readCount_pollCycles, readCount]

theorem readCount_commandCycle (c : Nat) : readCount (commandCycle c) = 0 := rfl

theorem readCount_dataCycle (d : Nat) : readCount (dataCycle d) = 0 := rfl

theorem initBoot_runs (m : Machine) : Runs m bootAccesses (initBoot m) :=
  ((((((PORTS_init_runs m).trans (delayMs_runs 30 _)).trans
    (LCD_command_noPoll_runs 0x30 _)).trans (delayMs_runs 10 _)).trans
    (LCD_command_noPoll_runs 0x30 _)).trans (delayMs_runs 1 _)).trans
    (LCD_command_noPoll_runs 0x30 _)

/-- A call of `LCD_command` that returns: where it leaves the stream. -/
theorem LCD_command_step (sc : Bool) (fuel c : Nat) (m m' : Machine)
    (h : LCD_command sc fuel c m = some m') :
    ∃ k, k < fuel ∧ busyFor m.idr m.reads k ∧ m'.idr = m.idr ∧ m'.reads = m.reads + (k + 1) ∧
      Runs m (readyAccesses (samples m.idr m.reads (k + 1)) ++ commandCycle (c % 256)) m' := by
  obtain ⟨k, hk, hb, hr⟩ := LCD_command_spec sc fuel c m m' h
  refine ⟨k, hk, hb, hr.idr, ?_, hr⟩
  rw [hr.reads, readCount_append, readCount_readyAccesses, samples_length, readCount_commandCycle]

/-- A call of `LCD_data` that returns: where it leaves the stream. -/
theorem LCD_data_step (sc : Bool) (fuel d : Nat) (m m' : Machine)
    (h : LCD_data sc fuel d m = some m') :
    ∃ k, k < fuel ∧ busyFor m.idr m.reads k ∧ m'.idr = m.idr ∧ m'.reads = m.reads + (k + 1) ∧
      Runs m (readyAccesses (samples m.idr m.reads (k + 1)) ++ dataCycle (charValue sc d)) m' := by
  obtain ⟨k, hk, hb, hr⟩ := LCD_data_spec sc fuel d m m' h
  refine ⟨k, hk, hb, hr.idr, ?_, hr⟩
  rw [hr.reads, readCount_append, readCount_readyAccesses, samples_length, readCount_dataCycle]

theorem LCD_init_spec (sc : Bool) (fuel : Nat) (m m' : Machine)
    (h : LCD_init sc fuel m = some m') :
    ∃ k₁ k₂ k₃ k₄, (k₁ < fuel ∧ k₂ < fuel ∧ k₃ < fuel ∧ k₄ < fuel) ∧
      busyFor m.idr m.reads k₁ ∧
      busyFor m.idr (m.reads + (k₁ + 1)) k₂ ∧
      busyFor m.idr (m.reads + (k₁ + 1) + (k₂ + 1)) k₃ ∧
      busyFor m.idr (m.reads + (k₁ + 1) + (k₂ + 1) + (k₃ + 1)) k₄ ∧
      m'.reads = m.reads + (k₁ + 1) + (k₂ + 1) + (k₃ + 1) + (k₄ + 1) ∧
      Runs m (initAccesses (samples m.idr m.reads (k₁ + 1))
        (samples m.idr (m.reads + (k₁ + 1)) (k₂ + 1))
        (samples m.idr (m.reads + (k₁ + 1) + (k₂ + 1)) (k₃ + 1))
        (samples m.idr (m.reads + (k₁ + 1) + (k₂ + 1) + (k₃ + 1)) (k₄ + 1))) m' := by
  have hboot := initBoot_runs m
  have h' : (LCD_command sc fuel 0x38 (initBoot m)).bind (fun m₁ =>
      (LCD_command sc fuel 0x06 m₁).bind (fun m₂ =>
        (LCD_command sc fuel 0x01 m₂).bind (fun m₃ =>
          (LCD_command sc fuel 0x0F m₃).bind some))) = some m' := h
  simp only [Option.bind_eq_some] at h'
  obtain ⟨m₁, h₁, m₂, h₂, m₃, h₃, m₄, h₄, hm⟩ := h'
  cases hm
  obtain ⟨k₁, hk₁, hb₁, hi₁, hr₁, hruns₁⟩ := LCD_command_step sc fuel _ _ _ h₁
  obtain ⟨k₂, hk₂, hb₂, hi₂, hr₂, hruns₂⟩ := LCD_command_step sc fuel _ _ _ h₂
  obtain ⟨k₃, hk₃, hb₃, hi₃, hr₃, hruns₃⟩ := LCD_command_step sc fuel _ _ _ h₃
  obtain ⟨k₄, hk₄, hb₄, hi₄, hr₄, hruns₄⟩ := LCD_command_step sc fuel _ _ _ h₄
  have e0 : (initBoot m).reads = m.reads := hboot.reads
  have i0 : (initBoot m).idr = m.idr := hboot.idr
  rw [e0] at hr₁
  rw [hr₁] at hr₂
  rw [hr₂] at hr₃
  rw [hr₃] at hr₄
  rw [i0] at hi₁
  rw [hi₁] at hi₂
  rw [hi₂] at hi₃
  rw [i0, e0] at hb₁ hruns₁
  rw [hi₁, hr₁] at hb₂ hruns₂
  rw [hi₂, hr₂] at hb₃ hruns₃
  rw [hi₃, hr₃] at hb₄ hruns₄
  refine ⟨k₁, k₂, k₃, k₄, ⟨hk₁, hk₂, hk₃, hk₄⟩, hb₁, hb₂, hb₃, hb₄, hr₄, ?_⟩
  exact ((((hboot.trans hruns₁).trans hruns₂).trans hruns₃).trans hruns₄).cast
    (by simp [initAccesses, bootAccesses, List.append_assoc])

theorem main_body_spec (sc : Bool) (fuel : Nat) (m m' : Machine)
    (h : main_body sc fuel m = some m') :
    ∃ k₁ k₂ k₃ k₄ k₅ k₆,
      (k₁ < fuel ∧ k₂ < fuel ∧ k₃ < fuel ∧ k₄ < fuel ∧ k₅ < fuel ∧ k₆ < fuel) ∧
      busyFor m.idr m.reads k₁ ∧
      busyFor m.idr (m.reads + (k₁ + 1)) k₂ ∧
      busyFor m.idr (m.reads + (k₁ + 1) + (k₂ + 1)) k₃ ∧
      busyFor m.idr (m.reads + (k₁ + 1) + (k₂ + 1) + (k₃ + 1)) k₄ ∧
      busyFor m.idr (m.reads + (k₁ + 1) + (k₂ + 1) + (k₃ + 1) + (k₄ + 1)) k₅ ∧
      busyFor m.idr (m.reads + (k₁ + 1) + (k₂ + 1) + (k₃ + 1) + (k₄ + 1) + (k₅ + 1)) k₆ ∧
      m'.idr = m.idr ∧
      m'.reads = m.reads + (k₁ + 1) + (k₂ + 1) + (k₃ + 1) + (k₄ + 1) + (k₅ + 1) + (k₆ + 1) ∧
      Runs m (bodyAccesses (samples m.idr m.reads (k₁ + 1))
        (samples m.idr (m.reads + (k₁ + 1)) (k₂ + 1))
        (samples m.idr (m.reads + (k₁ + 1) + (k₂ + 1)) (k₃ + 1))
        (samples m.idr (m.reads + (k₁ + 1) + (k₂ + 1) + (k₃ + 1)) (k₄ + 1))
        (samples m.idr (m.reads + (k₁ + 1) + (k₂ + 1) + (k₃ + 1) + (k₄ + 1)) (k₅ + 1))
        (samples m.idr (m.reads + (k₁ + 1) + (k₂ + 1) + (k₃ + 1) + (k₄ + 1) + (k₅ + 1))
          (k₆ + 1))) m' := by
  have h' : (LCD_data sc fuel 0x48 m).bind (fun m₁ =>
      (LCD_data sc fuel 0x65 m₁).bind (fun m₂ =>
        (LCD_data sc fuel 0x6C m₂).bind (fun m₃ =>
          (LCD_data sc fuel 0x6C m₃).bind (fun m₄ =>
            (LCD_data sc fuel 0x6F m₄).bind (fun m₅ =>
              (LCD_command sc fuel 1 (delayMs 500 m₅)).bind (fun m₆ =>
                some (delayMs 500 m₆))))))) = some m' := h
  simp only [Option.bind_eq_some] at h'
  obtain ⟨m₁, h₁, m₂, h₂, m₃, h₃, m₄, h₄, m₅, h₅, m₆, h₆, hm⟩ := h'
  cases hm
  obtain ⟨k₁, hk₁, hb₁, hi₁, hr₁, hruns₁⟩ := LCD_data_step sc fuel _ _ _ h₁
  obtain ⟨k₂, hk₂, hb₂, hi₂, hr₂, hruns₂⟩ := LCD_data_step sc fuel _ _ _ h₂
  obtain ⟨k₃, hk₃, hb₃, hi₃, hr₃, hruns₃⟩ := LCD_data_step sc fuel _ _ _ h₃
  obtain ⟨k₄, hk₄, hb₄, hi₄, hr₄, hruns₄⟩ := LCD_data_step sc fuel _ _ _ h₄
  obtain ⟨k₅, hk₅, hb₅, hi₅, hr₅, hruns₅⟩ := LCD_data_step sc fuel _ _ _ h₅
  obtain ⟨k₆, hk₆, hb₆, hi₆, hr₆, hruns₆⟩ := LCD_command_step sc fuel _ _ _ h₆
  have hd := delayMs_runs 500 m₅
  have hd' := delayMs_runs 500 m₆
  have e5 : (delayMs 500 m₅).reads = m₅.reads := hd.reads
  have i5 : (delayMs 500 m₅).idr = m₅.idr := hd.idr
  rw [hr₁] at hr₂
  rw [hr₂] at hr₃
  rw [hr₃] at hr₄
  rw [hr₄] at hr₅
  rw [e5, hr₅] at hr₆
  rw [hi₁] at hi₂
  rw [hi₂] at hi₃
  rw [hi₃] at hi₄
  rw [hi₄] at hi₅
  rw [i5, hi₅] at hi₆
  rw [hi₁, hr₁] at hb₂ hruns₂
  rw [hi₂, hr₂] at hb₃ hruns₃
  rw [hi₃, hr₃] at hb₄ hruns₄
  rw [hi₄, hr₄] at hb₅ hruns₅
  rw [i5, e5, hi₅, hr₅] at hb₆ hruns₆
  refine ⟨k₁, k₂, k₃, k₄, k₅, k₆, ⟨hk₁, hk₂, hk₃, hk₄, hk₅, hk₆⟩, hb₁, hb₂, hb₃, hb₄, hb₅, hb₆,
    ?_, ?_, ?_⟩
  · exact hd'.idr.trans hi₆
  · exact hd'.reads.trans hr₆
  · exact (((((((hruns₁.trans hruns₂).trans hruns₃).trans hruns₄).trans hruns₅).trans hd).trans
      hruns₆).trans hd').cast
      (by simp +decide [bodyAccesses, charValue, List.append_assoc])

/-! ## Termination -/

theorem Runs.unique {m m₁ m₂ : Machine} {l : List Access} (h₁ : Runs m l m₁)
    (h₂ : Runs m l m₂) : m₁ = m₂ := by
  obtain ⟨a₁, b₁, c₁, d₁⟩ := h₁
  obtain ⟨a₂, b₂, c₂, d₂⟩ := h₂
  cases m₁; cases m₂
  simp only at a₁ b₁ c₁ d₁ a₂ b₂ c₂ d₂
  subst a₁ b₁ c₁ d₁ a₂ b₂ c₂ d₂
  rfl

theorem Returns.bind {f : Nat → Option Machine} {g : Nat → Machine → Option Machine}
    {m₁ m₂ : Machine} (h₁ : Returns f m₁) (h₂ : Returns (fun fuel => g fuel m₁) m₂) :
    Returns (fun fuel => (f fuel).bind (g fuel)) m₂ := by
  obtain ⟨F₁, hF₁⟩ := h₁
  obtain ⟨F₂, hF₂⟩ := h₂
  refine ⟨max F₁ F₂, fun fuel hf => ?_⟩
  have e₁ := hF₁ fuel (le_trans (le_max_left _ _) hf)
  have e₂ := hF₂ fuel (le_trans (le_max_right _ _) hf)
  simp only [e₁, Option.some_bind]
  exact e₂

theorem Returns.isSome {f : Nat → Option Machine} {m' : Machine} (h : Returns f m') :
    ∃ F, ∀ fuel, F ≤ fuel → (f fuel).isSome = true := by
  obtain ⟨F, hF⟩ := h
  exact ⟨F, fun fuel hf => by rw [hF fuel hf]; rfl⟩

theorem LCD_ready_Returns (sc : Bool) (m : Machine) (h : EventuallyReady m.idr) :
    ∃ m', Returns (fun fuel => LCD_ready sc fuel m) m' ∧ m'.idr = m.idr := by
  obtain ⟨k, hk⟩ := h.busyFor m.reads
  obtain ⟨m', _, hruns⟩ := LCD_ready_returns sc hk (Nat.lt_succ_self k)
  refine ⟨m', ⟨k + 1, fun fuel hf => ?_⟩, hruns.idr⟩
  obtain ⟨m'', h'', hruns'⟩ := LCD_ready_returns sc hk (show k < fuel by omega)
  show LCD_ready sc fuel m = some m'
  rw [h'', hruns.unique hruns']

theorem LCD_command_Returns (sc : Bool) (c : Nat) (m : Machine) (h : EventuallyReady m.idr) :
    ∃ m', Returns (fun fuel => LCD_command sc fuel c m) m' ∧ m'.idr = m.idr := by
  obtain ⟨m₁, ⟨F, hF⟩, hi⟩ := LCD_ready_Returns sc m h
  refine ⟨LCD_command_noPoll c m₁, ⟨F, fun fuel hf => ?_⟩, ?_⟩
  · have e : LCD_ready sc fuel m = some m₁ := hF fuel hf
    show LCD_command sc fuel c m = _
    rw [LCD_command_eq, e]; rfl
  · exact (LCD_command_noPoll_runs c m₁).idr.trans hi

theorem LCD_data_Returns (sc : Bool) (d : Nat) (m : Machine) (h : EventuallyReady m.idr) :
    ∃ m', Returns (fun fuel => LCD_data sc fuel d m) m' ∧ m'.idr = m.idr := by
  obtain ⟨m₁, ⟨F, hF⟩, hi⟩ := LCD_ready_Returns sc m h
  refine ⟨dataWrite sc d m₁, ⟨F, fun fuel hf => ?_⟩, ?_⟩
  · have e : LCD_ready sc fuel m = some m₁ := hF fuel hf
    show LCD_data sc fuel d m = _
    rw [LCD_data_eq, e]; rfl
  · exact (dataWrite_runs sc d m₁).idr.trans hi

theorem LCD_init_Returns (sc : Bool) (m : Machine) (h : EventuallyReady m.idr) :
    ∃ m', Returns (fun fuel => LCD_init sc fuel m) m' ∧ m'.idr = m.idr := by
  have h0 : EventuallyReady (initBoot m).idr := by rw [(initBoot_runs m).idr]; exact h
  obtain ⟨m₁, r₁, i₁⟩ := LCD_command_Returns sc 0x38 _ h0
  obtain ⟨m₂, r₂, i₂⟩ := LCD_command_Returns sc 0x06 m₁ (by rw [i₁]; exact h0)
  obtain ⟨m₃, r₃, i₃⟩ := LCD_command_Returns sc 0x01 m₂ (by rw [i₂, i₁]; exact h0)
  obtain ⟨m₄, r₄, i₄⟩ := LCD_command_Returns sc 0x0F m₃ (by rw [i₃, i₂, i₁]; exact h0)
  refine ⟨m₄, ?_, by rw [i₄, i₃, i₂, i₁, (initBoot_runs m).idr]⟩
  exact Returns.bind r₁ (Returns.bind r₂ (Returns.bind r₃
    (Returns.bind (g := fun _ m => some m) r₄ ⟨0, fun _ _ => rfl⟩)))

theorem main_body_Returns (sc : Bool) (m : Machine) (h : EventuallyReady m.idr) :
    ∃ m', Returns (fun fuel => main_body sc fuel m) m' ∧ m'.idr = m.idr := by
  obtain ⟨m₁, r₁, i₁⟩ := LCD_data_Returns sc 0x48 m h
  obtain ⟨m₂, r₂, i₂⟩ := LCD_data_Returns sc 0x65 m₁ (by rw [i₁]; exact h)
  obtain ⟨m₃, r₃, i₃⟩ := LCD_data_Returns sc 0x6C m₂ (by rw [i₂, i₁]; exact h)
  obtain ⟨m₄, r₄, i₄⟩ := LCD_data_Returns sc 0x6C m₃ (by rw [i₃, i₂, i₁]; exact h)
  obtain ⟨m₅, r₅, i₅⟩ := LCD_data_Returns sc 0x6F m₄ (by rw [i₄, i₃, i₂, i₁]; exact h)
  obtain ⟨m₆, r₆, i₆⟩ := LCD_command_Returns sc 1 (delayMs 500 m₅)
    (by rw [(delayMs_runs 500 m₅).idr, i₅, i₄, i₃, i₂, i₁]; exact h)
  refine ⟨delayMs 500 m₆, ?_, by
    rw [(delayMs_runs 500 m₆).idr, i₆, (delayMs_runs 500 m₅).idr, i₅, i₄, i₃, i₂, i₁]⟩
  exact Returns.bind r₁ (Returns.bind r₂ (Returns.bind r₃ (Returns.bind r₄ (Returns.bind r₅
    (Returns.bind (g := fun fuel m => (LCD_command sc fuel 1 (delayMs 500 m)).bind
        (fun m₆ => some (delayMs 500 m₆))) ⟨0, fun _ _ => rfl⟩
      (Returns.bind (g := fun _ m => some (delayMs 500 m)) r₆ ⟨0, fun _ _ => rfl⟩))))))

theorem main_loop_Returns (sc : Bool) (n : Nat) (m : Machine) (h : EventuallyReady m.idr) :
    ∃ m', Returns (fun fuel => main_loop sc fuel n m) m' ∧ m'.idr = m.idr := by
  induction n generalizing m with
  | zero => exact ⟨m, ⟨0, fun _ _ => rfl⟩, rfl⟩
  | succ n ih =>
    obtain ⟨m₁, ⟨F₁, hF₁⟩, i₁⟩ := main_body_Returns sc m h
    obtain ⟨m₂, ⟨F₂, hF₂⟩, i₂⟩ := ih m₁ (by rw [i₁]; exact h)
    refine ⟨m₂, ⟨max F₁ F₂, fun fuel hf => ?_⟩, i₂.trans i₁⟩
    have e₁ := hF₁ fuel (le_trans (le_max_left _ _) hf)
    have e₂ := hF₂ fuel (le_trans (le_max_right _ _) hf)
    simp only [main_loop, e₁]
    exact e₂

theorem main_Returns (sc : Bool) (n : Nat) (m : Machine) (h : EventuallyReady m.idr) :
    ∃ m', Returns (fun fuel => main sc fuel n m) m' := by
  obtain ⟨m₁, ⟨F₁, hF₁⟩, i₁⟩ := LCD_init_Returns sc m h
  obtain ⟨m₂, ⟨F₂, hF₂⟩, _⟩ := main_loop_Returns sc n m₁ (by rw [i₁]; exact h)
  refine ⟨m₂, max F₁ F₂, fun fuel hf => ?_⟩
  have e₁ := hF₁ fuel (le_trans (le_max_left _ _) hf)
  have e₂ := hF₂ fuel (le_trans (le_max_right _ _) hf)
  simp only [main, e₁]
  exact e₂

/-! ## Further facts used by the properties -/

theorem Runs.newSteps {m m' : Machine} {l : List Access} (h : Runs m l m') :
    m'.log.drop m.log.length = stepsOf m.regs l := by
  rw [h.log, List.drop_left]

theorem Runs.newAccesses {m m' : Machine} {l : List Access} (h : Runs m l m') :
    accesses (m'.log.drop m.log.length) = l := by
  rw [h.newSteps, accesses_stepsOf]

theorem enPulsesFrom_pollCycles (w : List Nat) (l : List Access) :
    enPulsesFrom false (pollCycles w ++ l) = w.length + enPulsesFrom false l := by
  induction w with
  | nil => simp [pollCycles]
  | cons v w ih =>
    have : enPulsesFrom false (pollCycle v ++ (pollCycles w ++ l)) =
        1 + enPulsesFrom false (pollCycles w ++ l) := by
      simp +decide [pollCycle, enPulsesFrom, Access.assertsEN, Access.deassertsEN, EN]
    rw [pollCycles, List.append_assoc, this, ih, List.length_cons]
    omega

theorem enPulses_readyAccesses (w : List Nat) : enPulses (readyAccesses w) = w.length := by
  have h := enPulsesFrom_pollCycles w [.GPIOB_BSRR 0x400000, .GPIOC_MODER_or 0x5555]
  simp +decide [enPulses, readyAccesses, enPulsesFrom, Access.assertsEN, Access.deassertsEN] at h ⊢
  exact h

theorem busRestored_ready (w : List Nat) (hw : w ≠ []) (r : Regs) :
    busRestored r (replay r (readyAccesses w)) := by
  obtain ⟨_, _, h3, _, _, h6, _⟩ := replay_readyAccesses w hw r
  refine ⟨?_, ?_, h6⟩
  · rw [h3, mode_or_low, mode_and_low]; rfl
  · rw [h3, mode_or_high, mode_and_high]

theorem busRestored_command {r r' : Regs} (c : Nat) (h : busRestored r r') :
    busRestored r (replay r' (commandCycle c)) := by
  obtain ⟨_, _, h3, _, _, h6, _⟩ := replay_commandCycle c r'
  exact ⟨by rw [h3]; exact h.1, by rw [h3]; exact h.2.1, h6⟩

theorem busRestored_data {r r' : Regs} (d : Nat) (h : busRestored r r') :
    busRestored r (replay r' (dataCycle d)) := by
  obtain ⟨_, _, h3, _, _, h6, _⟩ := replay_dataCycle d r'
  exact ⟨by rw [h3]; exact h.1, by rw [h3]; exact h.2.1, h6⟩

theorem busRestored_trans {r₁ r₂ r₃ : Regs} (h₁ : busRestored r₁ r₂) (h₂ : busRestored r₂ r₃) :
    busRestored r₁ r₃ :=
  ⟨h₂.1, h₂.2.1.trans h₁.2.1, h₂.2.2⟩

theorem busRestored_LCD_ready (sc : Bool) (fuel : Nat) (m m' : Machine)
    (h : LCD_ready sc fuel m = some m') : busRestored m.regs m'.regs := by
  obtain ⟨k, _, _, hr⟩ := (LCD_ready_spec sc fuel m).1 m' h
  rw [hr.regs]
  exact busRestored_ready _ (samples_ne_nil _ _ _) _

theorem busRestored_LCD_command (sc : Bool) (fuel c : Nat) (m m' : Machine)
    (h : LCD_command sc fuel c m = some m') : busRestored m.regs m'.regs := by
  obtain ⟨k, _, _, hr⟩ := LCD_command_spec sc fuel c m m' h
  rw [hr.regs, replay_append]
  exact busRestored_command _ (busRestored_ready _ (samples_ne_nil _ _ _) _)

theorem busRestored_LCD_data (sc : Bool) (fuel d : Nat) (m m' : Machine)
    (h : LCD_data sc fuel d m = some m') : busRestored m.regs m'.regs := by
  obtain ⟨k, _, _, hr⟩ := LCD_data_spec sc fuel d m m' h
  rw [hr.regs, replay_append]
  exact busRestored_data _ (busRestored_ready _ (samples_ne_nil _ _ _) _)

theorem busRestored_initBoot (m : Machine) : busRestored m.regs (initBoot m).regs := by
  rw [(initBoot_runs m).regs]
  simp only [bootAccesses, replay_append]
  refine busRestored_command _ ?_
  have hd : ∀ (r : Regs) (n : Int), replay r [.delayMs n] = r := fun r n => rfl
  rw [hd]
  refine busRestored_command _ ?_
  rw [hd]
  refine busRestored_command _ ?_
  rw [hd]
  obtain ⟨h1, _, _, h4, _⟩ := replay_portsAccesses m.regs
  refine ⟨?_, ?_, h4⟩
  · rw [h1, mode_or_low, mode_and_low]; rfl
  · rw [h1, mode_or_high, mode_and_high]

theorem busRestored_LCD_init (sc : Bool) (fuel : Nat) (m m' : Machine)
    (h : LCD_init sc fuel m = some m') : busRestored m.regs m'.regs := by
  have h' : (LCD_command sc fuel 0x38 (initBoot m)).bind (fun m₁ =>
      (LCD_command sc fuel 0x06 m₁).bind (fun m₂ =>
        (LCD_command sc fuel 0x01 m₂).bind (fun m₃ =>
          (LCD_command sc fuel 0x0F m₃).bind some))) = some m' := h
  simp only [Option.bind_eq_some] at h'
  obtain ⟨m₁, h₁, m₂, h₂, m₃, h₃, m₄, h₄, hm⟩ := h'
  cases hm
  exact busRestored_trans (busRestored_trans (busRestored_trans (busRestored_trans
    (busRestored_initBoot m) (busRestored_LCD_command _ _ _ _ _ h₁))
    (busRestored_LCD_command _ _ _ _ _ h₂)) (busRestored_LCD_command _ _ _ _ _ h₃))
    (busRestored_LCD_command _ _ _ _ _ h₄)

/-! ## The properties -/

/-- C7: configuring the data bus direction is idempotent. Applying the output
configuration (`MODER &= ~0x0000FFFF` then `MODER |= 0x00005555`) twice gives the
same registers as applying it once, and so does the input configuration
(`MODER &= ~0x0000FFFF`); both leave bits 16-31 of the port C mode register as
they were and set PC0-PC7 to output, respectively input. These are the
configurations that `PORTS_init` and `LCD_ready` leave in the register. -/
theorem busConfig_idempotent (r : Regs) :
    busConfigOutput (busConfigOutput r) = busConfigOutput r ∧
    busConfigInput (busConfigInput r) = busConfigInput r ∧
    (busConfigOutput r).GPIOC_MODER &&& 0xFFFF0000 = r.GPIOC_MODER &&& 0xFFFF0000 ∧
    (busConfigInput r).GPIOC_MODER &&& 0xFFFF0000 = r.GPIOC_MODER &&& 0xFFFF0000 ∧
    (busConfigOutput r).busOutput ∧ (busConfigInput r).busInput ∧
    (∀ m : Machine, (PORTS_init m).regs.GPIOC_MODER = (busConfigOutput m.regs).GPIOC_MODER) ∧
    (∀ (sc : Bool) (fuel : Nat) (m m' : Machine), LCD_ready sc fuel m = some m' →
      m'.regs.GPIOC_MODER = (busConfigOutput m.regs).GPIOC_MODER) := by
  have e : not32 0x0000FFFF = 0xFFFF0000 := by decide
  refine ⟨?_, ?_, ?_, ?_, ?_, ?_, ?_, ?_⟩
  · simp [busConfigOutput, replay, Access.apply, e, mode_config_output]
  · simp [busConfigInput, replay, Access.apply, e, mode_and_high]
  · simp [busConfigOutput, replay, Access.apply, e, mode_or_high, mode_and_high]
  · simp [busConfigInput, replay, Access.apply, e, mode_and_high]
  · simp [busConfigOutput, Regs.busOutput, replay, Access.apply, e, mode_or_low, mode_and_low]
  · simp [busConfigInput, Regs.busInput, replay, Access.apply, e, mode_and_low]
  · intro m
    rfl
  · intro sc fuel m m' h
    obtain ⟨k, _, _, hr⟩ := (LCD_ready_spec sc fuel m).1 m' h
    rw [hr.regs, (replay_readyAccesses _ (samples_ne_nil _ _ _) _).2.2.1]
    simp [busConfigOutput, replay, Access.apply, e]

/-- C7, an instance: a mode register with port C pins in mixed modes and bits
set in its upper half. -/
theorem busConfig_idempotent_witness :
    busConfigOutput (busConfigOutput ⟨0, 0, 0, 0xABCD1234, 0⟩) =
        busConfigOutput ⟨0, 0, 0, 0xABCD1234, 0⟩ ∧
      busConfigInput (busConfigInput ⟨0, 0, 0, 0xABCD1234, 0⟩) =
        busConfigInput ⟨0, 0, 0, 0xABCD1234, 0⟩ ∧
      (busConfigOutput ⟨0, 0, 0, 0xABCD1234, 0⟩).GPIOC_MODER = 0xABCD5555 :=
  ⟨(busConfig_idempotent ⟨0, 0, 0, 0xABCD1234, 0⟩).1,
    (busConfig_idempotent ⟨0, 0, 0, 0xABCD1234, 0⟩).2.1, by decide⟩

/-- C2: `LCD_ready` returns on the first poll cycle whose sample has bit 7 clear
and not before. The loop test `status & 0x80` is bit 7 of the value read from the
input register, whatever its other bits and whether `char` is signed or not;
the call gives no result within a bound exactly when every sample within the
bound has bit 7 set; a result comes after `k + 1` reads where the first `k`
samples have bit 7 set and the next one has it clear, the accesses being those of
`k + 1` poll cycles followed only by the two restoring writes; and the call
returns as soon as the bound exceeds the index of a sample with bit 7 clear. -/
theorem LCD_ready_returns_on_first_ready (sc : Bool) (m : Machine) :
    (∀ v, (charValue sc (v % 2 ^ 32) &&& 0x80 ≠ 0) ↔ v.testBit 7 = true) ∧
    (∀ fuel, LCD_ready sc fuel m = none ↔
      ∀ j, j < fuel → (m.idr (m.reads + j)).testBit 7 = true) ∧
    (∀ fuel m', LCD_ready sc fuel m = some m' →
      ∃ k, k < fuel ∧ busyFor m.idr m.reads k ∧ m'.reads = m.reads + (k + 1) ∧
        accesses m'.log = accesses m.log ++ readyAccesses (samples m.idr m.reads (k + 1))) ∧
    (∀ j fuel, (m.idr (m.reads + j)).testBit 7 = false → j < fuel →
      (LCD_ready sc fuel m).isSome = true) := by
  refine ⟨status_busy_iff sc, fun fuel => ⟨(LCD_ready_spec sc fuel m).2, fun hall => ?_⟩,
    fun fuel m' h => ?_, fun j fuel hj hlt => ?_⟩
  · cases hres : LCD_ready sc fuel m with
    | none => rfl
    | some m' =>
      obtain ⟨k, hk, hb, _⟩ := (LCD_ready_spec sc fuel m).1 m' hres
      have := hall k hk
      rw [hb.2] at this; cases this
  · obtain ⟨k, hk, hb, hr⟩ := (LCD_ready_spec sc fuel m).1 m' h
    refine ⟨k, hk, hb, ?_, hr.accesses_log⟩
    rw [hr.reads, readCount_readyAccesses, samples_length]
  · cases hres : LCD_ready sc fuel m with
    | none =>
      have := (LCD_ready_spec sc fuel m).2 hres j hlt
      rw [hj] at this; cases this
    | some m' => rfl

/-- C2, an instance: on a stream that reads busy twice and then ready, with a
signed `char`, `LCD_ready` returns after three reads. -/
theorem LCD_ready_returns_on_first_ready_witness :
    ∃ m', LCD_ready true 3 (Machine.start (busyThenReady 2)) = some m' ∧
      ∃ k, k < 3 ∧ busyFor (busyThenReady 2) 0 k ∧ m'.reads = 0 + (k + 1) ∧
        accesses m'.log = accesses [] ++ readyAccesses (samples (busyThenReady 2) 0 (k + 1)) :=
  ⟨_, rfl, (LCD_ready_returns_on_first_ready true (Machine.start (busyThenReady 2))).2.2.1
    3 _ rfl⟩

/-- C3, as the code has it: on a stream that reads busy in exactly `n` poll cycles
and ready in the next one, `LCD_ready` returns after exactly `n + 1` enable
pulses, one for each busy cycle and one for the cycle that reads ready. -/
theorem LCD_ready_enable_pulses (sc : Bool) (fuel n : Nat) (m : Machine)
    (hb : busyFor m.idr m.reads n) (hf : n < fuel) :
    ∃ m', LCD_ready sc fuel m = some m' ∧
      enPulses (accesses (m'.log.drop m.log.length)) = n + 1 := by
  obtain ⟨m', h, hr⟩ := LCD_ready_returns sc hb hf
  exact ⟨m', h, by rw [hr.newAccesses, enPulses_readyAccesses, samples_length]⟩

/-- C3, an instance: five busy cycles, six pulses. -/
theorem LCD_ready_enable_pulses_witness :
    busyFor (busyThenReady 5) 0 5 ∧ 5 < 8 ∧
    ∃ m', LCD_ready false 8 (Machine.start (busyThenReady 5)) = some m' ∧
      enPulses (accesses (m'.log.drop 0)) = 5 + 1 :=
  ⟨by decide, by decide,
    LCD_ready_enable_pulses false 8 5 (Machine.start (busyThenReady 5)) (by decide) (by decide)⟩

/-- C3 as stated fails: when the status register reads busy for exactly 5 poll
cycles and then ready, `LCD_ready` performs 6 enable pulses, not 5. -/
theorem LCD_ready_five_busy_six_pulses :
    busyFor (busyThenReady 5) 0 5 ∧
    (LCD_ready false 8 (Machine.start (busyThenReady 5))).map
      (fun m' => enPulses (accesses m'.log)) = some 6 ∧
    (LCD_ready false 8 (Machine.start (busyThenReady 5))).map
      (fun m' => enPulses (accesses m'.log)) ≠ some 5 :=
  ⟨by decide, by decide, by decide⟩

/-- C4: whatever the registers at the call (port C in input mode or any other
mode) and however many poll cycles occur, `LCD_ready` returns with PC0-PC7 in
output mode (low half of the port C mode register `0x5555`, upper half as it
was) and R/W low; so do `LCD_command`, `LCD_data` and `LCD_init`. For a stream
that is busy for `k` cycles the call of `LCD_ready` does return, after `k + 1`
polls. -/
theorem bus_restored_on_return (sc : Bool) (fuel : Nat) (m m' : Machine) :
    (LCD_ready sc fuel m = some m' → busRestored m.regs m'.regs) ∧
    (∀ c, LCD_command sc fuel c m = some m' → busRestored m.regs m'.regs) ∧
    (∀ d, LCD_data sc fuel d m = some m' → busRestored m.regs m'.regs) ∧
    (LCD_init sc fuel m = some m' → busRestored m.regs m'.regs) ∧
    (∀ k, busyFor m.idr m.reads k → k < fuel →
      ∃ m'', LCD_ready sc fuel m = some m'' ∧ m''.reads = m.reads + (k + 1) ∧
        busRestored m.regs m''.regs) := by
  refine ⟨busRestored_LCD_ready sc fuel m m', fun c => busRestored_LCD_command sc fuel c m m',
    fun d => busRestored_LCD_data sc fuel d m m', busRestored_LCD_init sc fuel m m',
    fun k hb hk => ?_⟩
  obtain ⟨m'', h, hr⟩ := LCD_ready_returns sc hb hk
  refine ⟨m'', h, ?_, busRestored_LCD_ready sc fuel m m'' h⟩
  rw [hr.reads, readCount_readyAccesses, samples_length]

/-- C4, an instance: from a state with port C in input mode and R/W high, after
three poll cycles. -/
theorem bus_restored_on_return_witness :
    ∃ m', LCD_ready false 4 (Machine.inputMode (busyThenReady 2)) = some m' ∧
      busRestored (Machine.inputMode (busyThenReady 2)).regs m'.regs :=
  ⟨_, rfl, (bus_restored_on_return false 4 (Machine.inputMode (busyThenReady 2)) _).1 rfl⟩

theorem bsrr_testBit_ge (v odr i : Nat) (hi : 16 ≤ i) : (bsrr v odr).testBit i = false := by
  have h : Nat.testBit 0xFFFF i = false := by
    rw [show (0xFFFF : Nat) = 2 ^ 16 - 1 from rfl, Nat.testBit_two_pow_sub_one]
    simp; omega
  unfold bsrr
  simp [Nat.testBit_or, Nat.testBit_and, Nat.testBit_xor, h]

/-- The two write cycles leave the port B output register equal in every bit
except bit 5 (R/S). -/
theorem bsrr_data_vs_command (x i : Nat) (hi : i ≠ 5) :
    (bsrr 0x800000 (bsrr 0x80 (bsrr 0x400000 (bsrr 0x20 x)))).testBit i =
      (bsrr 0x800000 (bsrr 0x80 (bsrr 0x600000 x))).testBit i := by
  by_cases h16 : i < 16
  · interval_cases i <;> first
      | exact absurd rfl hi
      | simp +decide only [bsrr_set, bsrr_clear, bsrr_keep]
  · rw [bsrr_testBit_ge _ _ _ (by omega), bsrr_testBit_ge _ _ _ (by omega)]

/-- C5: once its readiness wait has returned, `LCD_command(c)` performs exactly
the accesses: clear R/S and R/W, write `c` to the data port, set EN, (the
`delayMs(0)` call), clear EN. R/S and R/W are low after each of them, and when EN
is set it goes from low to high with `c` on D0-D7 and the bus pins driven; the
call returns with EN low. -/
theorem LCD_command_write_cycle (sc : Bool) (fuel c : Nat) (m m₁ : Machine)
    (hready : LCD_ready sc fuel m = some m₁) :
    ∃ m₂, LCD_command sc fuel c m = some m₂ ∧
      m₂.log = m₁.log ++ stepsOf m₁.regs [.GPIOB_BSRR 0x600000, .GPIOC_ODR (c % 256),
        .GPIOB_BSRR 0x80, .delayMs 0, .GPIOB_BSRR 0x800000] ∧
      (∀ s ∈ stepsOf m₁.regs [.GPIOB_BSRR 0x600000, .GPIOC_ODR (c % 256),
          .GPIOB_BSRR 0x80, .delayMs 0, .GPIOB_BSRR 0x800000],
        s.post.rs = false ∧ s.post.rw = false ∧
        (s.acc.assertsEN = true →
          s.pre.en = false ∧ s.post.en = true ∧ s.post.bus = c % 256 ∧ s.post.busOutput)) ∧
      m₂.regs.en = false := by
  obtain ⟨k, _, _, hr⟩ := (LCD_ready_spec sc fuel m).1 m₁ hready
  obtain ⟨_, _, h3, _, _, _, h7⟩ := replay_readyAccesses _ (samples_ne_nil m.idr m.reads k) m.regs
  rw [← hr.regs] at h3 h7
  have hout : m₁.regs.GPIOC_MODER &&& 0xFFFF = 0x5555 := by
    rw [h3, mode_or_low, mode_and_low]; rfl
  have hrun := LCD_command_noPoll_runs c m₁
  refine ⟨LCD_command_noPoll c m₁, by rw [LCD_command_eq, hready]; rfl, hrun.log, ?_, ?_⟩
  · simp only [Regs.en] at h7
    intro s hs
    simp only [stepsOf, List.mem_cons, List.mem_singleton, List.not_mem_nil, or_false] at hs
    rcases hs with rfl | rfl | rfl | rfl | rfl <;>
      simp +decide [Access.apply, Access.assertsEN, Regs.rs, Regs.rw, Regs.en, Regs.bus,
        Regs.busOutput, bsrr_set, bsrr_clear, bsrr_keep, h7, hout]
  · rw [hrun.regs]
    exact (replay_commandCycle _ _).2.2.2.2.2.2

/-- C5, an instance: the command `0x38` on a controller that is ready at once. -/
theorem LCD_command_write_cycle_witness :
    ∃ m₁, LCD_ready false 1 (Machine.start (busyThenReady 0)) = some m₁ ∧
    ∃ m₂, LCD_command false 1 0x38 (Machine.start (busyThenReady 0)) = some m₂ ∧
      m₂.log = m₁.log ++ stepsOf m₁.regs [.GPIOB_BSRR 0x600000, .GPIOC_ODR (0x38 % 256),
        .GPIOB_BSRR 0x80, .delayMs 0, .GPIOB_BSRR 0x800000] ∧
      (∀ s ∈ stepsOf m₁.regs [.GPIOB_BSRR 0x600000, .GPIOC_ODR (0x38 % 256),
          .GPIOB_BSRR 0x80, .delayMs 0, .GPIOB_BSRR 0x800000],
        s.post.rs = false ∧ s.post.rw = false ∧
        (s.acc.assertsEN = true →
          s.pre.en = false ∧ s.post.en = true ∧ s.post.bus = 0x38 % 256 ∧ s.post.busOutput)) ∧
      m₂.regs.en = false :=
  ⟨_, rfl, LCD_command_write_cycle false 1 0x38 (Machine.start (busyThenReady 0)) _ rfl⟩

/-- C9: `LCD_data(b)` performs the write cycle of `LCD_command(b)` with R/S high
instead of low. Both start with the same call of `LCD_ready` (so one returns
exactly when the other does, after the same reads); after it `LCD_command`
clears R/S and R/W, `LCD_data` sets R/S and clears R/W, and both write `b` to the
data port and pulse EN; when EN is set R/W is low and D0-D7 carry `b` in both,
with R/S high for `LCD_data` and low for `LCD_command`; and the registers on
return are equal except for bit 5 (R/S) of the port B output register, which is
1 after `LCD_data` and 0 after `LCD_command`. Plain `char` is unsigned on the
target; with a signed `char` the same holds for `b < 0x80`. -/
theorem LCD_data_same_cycle_as_command (sc : Bool) (fuel b : Nat) (m : Machine)
    (hb : b < 256) (hc : sc = false ∨ b < 128) :
    (LCD_data sc fuel b m = none ↔ LCD_command sc fuel b m = none) ∧
    ∀ md mc, LCD_data sc fuel b m = some md → LCD_command sc fuel b m = some mc →
      ∃ m₁, LCD_ready sc fuel m = some m₁ ∧
        mc.log = m₁.log ++ stepsOf m₁.regs [.GPIOB_BSRR 0x600000, .GPIOC_ODR b,
          .GPIOB_BSRR 0x80, .delayMs 0, .GPIOB_BSRR 0x800000] ∧
        md.log = m₁.log ++ stepsOf m₁.regs [.GPIOB_BSRR 0x20, .GPIOB_BSRR 0x400000,
          .GPIOC_ODR b, .GPIOB_BSRR 0x80, .delayMs 0, .GPIOB_BSRR 0x800000] ∧
        (∀ s ∈ mc.log.drop m₁.log.length, s.acc.assertsEN = true →
          s.post.rs = false ∧ s.post.rw = false ∧ s.post.bus = b) ∧
        (∀ s ∈ md.log.drop m₁.log.length, s.acc.assertsEN = true →
          s.post.rs = true ∧ s.post.rw = false ∧ s.post.bus = b) ∧
        md.reads = mc.reads ∧
        md.regs.RCC_AHB1ENR = mc.regs.RCC_AHB1ENR ∧
        md.regs.GPIOB_MODER = mc.regs.GPIOB_MODER ∧
        md.regs.GPIOC_MODER = mc.regs.GPIOC_MODER ∧
        md.regs.GPIOC_ODR = mc.regs.GPIOC_ODR ∧
        (∀ i, i ≠ 5 → md.regs.GPIOB_ODR.testBit i = mc.regs.GPIOB_ODR.testBit i) ∧
        md.regs.GPIOB_ODR.testBit 5 = true ∧ mc.regs.GPIOB_ODR.testBit 5 = false := by
  have hb' : b % 256 = b := Nat.mod_eq_of_lt hb
  have hcv : charValue sc b = b := by
    rcases hc with rfl | h
    · simp [charValue, hb']
    · have : ¬ 128 ≤ b % 256 := by omega
      simp [charValue, hb', this]
      omega
  rw [LCD_data_eq, LCD_command_eq]
  cases hr : LCD_ready sc fuel m with
  | none => exact ⟨by simp, fun md mc h => by cases h⟩
  | some m₁ =>
    refine ⟨by simp, fun md mc hd hcm => ?_⟩
    cases hd
    cases hcm
    have rc := LCD_command_noPoll_runs b m₁
    have rd := dataWrite_runs sc b m₁
    rw [hb'] at rc
    rw [hcv] at rd
    refine ⟨m₁, rfl, rc.log, rd.log, ?_, ?_, ?_, ?_, ?_, ?_, ?_, ?_, ?_, ?_⟩
    · rw [rc.newSteps]
      intro s hs
      simp only [commandCycle, stepsOf, List.mem_cons, List.mem_singleton, List.not_mem_nil,
        or_false] at hs
      rcases hs with rfl | rfl | rfl | rfl | rfl <;>
        simp +decide [Access.apply, Access.assertsEN, Regs.rs, Regs.rw, Regs.bus, bsrr_set,
          bsrr_clear, bsrr_keep, hb']
    · rw [rd.newSteps]
      intro s hs
      simp only [dataCycle, stepsOf, List.mem_cons, List.mem_singleton, List.not_mem_nil,
        or_false] at hs
      rcases hs with rfl | rfl | rfl | rfl | rfl | rfl <;>
        simp +decide [Access.apply, Access.assertsEN, Regs.rs, Regs.rw, Regs.bus, bsrr_set,
          bsrr_clear, bsrr_keep, hb']
    · rw [rc.reads, rd.reads]; rfl
    · rw [rc.regs, rd.regs]; rfl
    · rw [rc.regs, rd.regs]; rfl
    · rw [rc.regs, rd.regs]; rfl
    · rw [rc.regs, rd.regs]; rfl
    · intro i hi
      rw [rc.regs, rd.regs]
      exact bsrr_data_vs_command m₁.regs.GPIOB_ODR i hi
    · rw [rd.regs]
      exact (replay_dataCycle _ _).2.2.2.2.1
    · rw [rc.regs]
      exact (replay_commandCycle _ _).2.2.2.2.1

/-- C9, an instance: the byte `0xC8` with an unsigned `char`, on a stream that is
busy once. -/
theorem LCD_data_same_cycle_as_command_witness :
    (0xC8 < 256 ∧ (false = false ∨ 0xC8 < 128)) ∧
    ∃ md mc, LCD_data false 2 0xC8 (Machine.start (busyThenReady 1)) = some md ∧
      LCD_command false 2 0xC8 (Machine.start (busyThenReady 1)) = some mc ∧
      (∀ i, i ≠ 5 → md.regs.GPIOB_ODR.testBit i = mc.regs.GPIOB_ODR.testBit i) ∧
      md.regs.GPIOC_ODR = mc.regs.GPIOC_ODR ∧
      md.regs.GPIOB_ODR.testBit 5 = true ∧ mc.regs.GPIOB_ODR.testBit 5 = false :=
  ⟨⟨by decide, Or.inl rfl⟩, _, _, rfl, rfl, by
    obtain ⟨_, _, _, _, _, _, _, _, _, _, hodr, hbits, hrs1, hrs0⟩ :=
      (LCD_data_same_cycle_as_command false 2 0xC8 (Machine.start (busyThenReady 1))
        (by decide) (Or.inl rfl)).2 _ _ rfl rfl
    exact ⟨hbits, hodr, hrs1, hrs0⟩⟩

/-! ## Step invariants of the blocks of accesses -/

theorem mem_stepsOf_append {P : Step → Prop} (r : Regs) (l₁ l₂ : List Access) :
    (∀ s ∈ stepsOf r (l₁ ++ l₂), P s) ↔
      (∀ s ∈ stepsOf r l₁, P s) ∧ (∀ s ∈ stepsOf (replay r l₁) l₂, P s) := by
  rw [stepsOf_append]
  simp only [List.mem_append]
  constructor
  · intro h
    exact ⟨fun s hs => h s (Or.inl hs), fun s hs => h s (Or.inr hs)⟩
  · rintro ⟨h₁, h₂⟩ s (hs | hs)
    · exact h₁ s hs
    · exact h₂ s hs

theorem closesPulse_append (l l' : List Access) (h : closesPulse l = true) :
    closesPulse (l ++ l') = true := by
  induction l with
  | nil => simp [closesPulse] at h
  | cons a l ih =>
    simp only [closesPulse, List.cons_append] at h ⊢
    split <;> rename_i h₁
    · simp [h₁] at h
    · rw [if_neg h₁] at h
      split <;> rename_i h₂
      · rfl
      · rw [if_neg h₂] at h
        exact ih h

theorem pulsesClosed_append (l l' : List Access) (h : pulsesClosed l = true)
    (h' : pulsesClosed l' = true) : pulsesClosed (l ++ l') = true := by
  induction l with
  | nil => simpa using h'
  | cons a l ih =>
    simp only [pulsesClosed, List.cons_append, Bool.and_eq_true, Bool.or_eq_true] at h ⊢
    refine ⟨?_, ih h.2⟩
    rcases h.1 with h₁ | h₁
    · exact Or.inl h₁
    · exact Or.inr (closesPulse_append l l' h₁)

theorem GoodFrom.append {r : Regs} {l₁ l₂ : List Access} (h₁ : GoodFrom r l₁)
    (h₂ : GoodFrom (replay r l₁) l₂) : GoodFrom r (l₁ ++ l₂) :=
  ⟨(mem_stepsOf_append r l₁ l₂).2 ⟨h₁.1, h₂.1⟩, pulsesClosed_append _ _ h₁.2.1 h₂.2.1,
    by rw [replay_append]; exact h₂.2.2⟩

theorem GoodFrom.nil {r : Regs} (h : Idle r) : GoodFrom r [] :=
  ⟨fun s hs => by simp [stepsOf] at hs, rfl, h⟩

theorem GoodFrom.delay {r : Regs} (h : Idle r) (n : Int) : GoodFrom r [.delayMs n] := by
  obtain ⟨hen, hrw, hout⟩ := h
  refine ⟨fun s hs => ?_, rfl, ⟨hen, hrw, hout⟩⟩
  simp only [stepsOf, List.mem_singleton] at hs
  subst hs
  simp [Step.good, Step.controlStable, Step.noContention, Step.turnaroundOrdered,
    Access.writesRSRW, Access.raisesRW, Access.drivesBus, Access.apply, hrw]

theorem GoodFrom.command {r : Regs} (h : Idle r) (c : Nat) : GoodFrom r (commandCycle c) := by
  obtain ⟨hen, hrw, hout⟩ := h
  simp only [Regs.en, Regs.rw, Regs.busOutput] at hen hrw hout
  refine ⟨fun s hs => ?_, by simp +decide [commandCycle, pulsesClosed, closesPulse,
    Access.assertsEN, Access.deassertsEN, Access.writesRSRW], ?_⟩
  · simp only [commandCycle, stepsOf, List.mem_cons, List.mem_singleton, List.not_mem_nil,
      or_false] at hs
    rcases hs with rfl | rfl | rfl | rfl | rfl <;>
      simp +decide [Step.good, Step.controlStable, Step.noContention, Step.turnaroundOrdered,
        Access.writesRSRW, Access.raisesRW, Access.drivesBus, Access.apply, Regs.en, Regs.rw,
        Regs.busInput, bsrr_set, bsrr_clear, bsrr_keep, hen, hrw]
  · obtain ⟨_, _, h3, _, _, h6, h7⟩ := replay_commandCycle c r
    exact ⟨h7, h6, by rw [Regs.busOutput, h3]; exact hout⟩

theorem GoodFrom.data {r : Regs} (h : Idle r) (d : Nat) : GoodFrom r (dataCycle d) := by
  obtain ⟨hen, hrw, hout⟩ := h
  simp only [Regs.en, Regs.rw, Regs.busOutput] at hen hrw hout
  refine ⟨fun s hs => ?_, by simp +decide [dataCycle, pulsesClosed, closesPulse,
    Access.assertsEN, Access.deassertsEN, Access.writesRSRW], ?_⟩
  · simp only [dataCycle, stepsOf, List.mem_cons, List.mem_singleton, List.not_mem_nil,
      or_false] at hs
    rcases hs with rfl | rfl | rfl | rfl | rfl | rfl <;>
      simp +decide [Step.good, Step.controlStable, Step.noContention, Step.turnaroundOrdered,
        Access.writesRSRW, Access.raisesRW, Access.drivesBus, Access.apply, Regs.en, Regs.rw,
        Regs.busInput, bsrr_set, bsrr_clear, bsrr_keep, hen, hrw]
  · obtain ⟨_, _, h3, _, _, h6, h7⟩ := replay_dataCycle d r
    exact ⟨h7, h6, by rw [Regs.busOutput, h3]; exact hout⟩

/-- The poll cycles, executed from the state between poll cycles. -/
theorem pollCycles_good (w : List Nat) (r : Regs) (h : Reading r) :
    (∀ s ∈ stepsOf r (pollCycles w), s.good) ∧ pulsesClosed (pollCycles w) = true ∧
      Reading (replay r (pollCycles w)) := by
  induction w generalizing r with
  | nil => exact ⟨fun s hs => by simp [pollCycles, stepsOf] at hs, rfl, h⟩
  | cons v w ih =>
    obtain ⟨hen, hrw, hin⟩ := h
    simp only [Regs.en, Regs.rw, Regs.busInput] at hen hrw hin
    have hnext : Reading (replay r (pollCycle v)) := by
      rw [replay_pollCycle]
      simp +decide [Reading, Regs.en, Regs.rw, Regs.busInput, bsrr_set, bsrr_clear, bsrr_keep,
        hrw, hin]
    obtain ⟨ih₁, ih₂, ih₃⟩ := ih _ hnext
    refine ⟨?_, ?_, ?_⟩
    · rw [pollCycles, mem_stepsOf_append]
      refine ⟨fun s hs => ?_, ih₁⟩
      simp only [pollCycle, stepsOf, List.mem_cons, List.mem_singleton, List.not_mem_nil,
        or_false] at hs
      rcases hs with rfl | rfl | rfl | rfl | rfl <;>
        simp +decide [Step.good, Step.controlStable, Step.noContention, Step.turnaroundOrdered,
          Access.writesRSRW, Access.raisesRW, Access.drivesBus, Access.apply, Regs.en, Regs.rw,
          Regs.busInput, bsrr_set, bsrr_clear, bsrr_keep, EN, hen, hrw, hin]
    · rw [pollCycles]
      exact pulsesClosed_append _ _ (by simp +decide [pollCycle, pulsesClosed, closesPulse,
        Access.assertsEN, Access.deassertsEN, Access.writesRSRW, EN]) ih₂
    · rw [pollCycles, replay_append]
      exact ih₃

theorem GoodFrom.ready {r : Regs} (h : Idle r) (w : List Nat) : GoodFrom r (readyAccesses w) := by
  obtain ⟨hen, hrw, hout⟩ := h
  simp only [Regs.en, Regs.rw, Regs.busOutput] at hen hrw hout
  have hhead : Reading
      (replay r [.GPIOC_MODER_and 0xFFFF0000, .GPIOB_BSRR 0x200000, .GPIOB_BSRR 0x40]) := by
    simp +decide [Reading, replay, Access.apply, Regs.en, Regs.rw, Regs.busInput, bsrr_set,
      bsrr_clear, bsrr_keep, hen, mode_and_low]
  obtain ⟨hp₁, hp₂, hp₃⟩ := pollCycles_good w _ hhead
  obtain ⟨ten, trw, tin⟩ := hp₃
  simp only [Regs.en, Regs.rw, Regs.busInput] at ten trw tin
  refine ⟨?_, ?_, ?_⟩
  · rw [readyAccesses, mem_stepsOf_append, mem_stepsOf_append]
    refine ⟨⟨fun s hs => ?_, hp₁⟩, fun s hs => ?_⟩
    · simp only [stepsOf, List.mem_cons, List.mem_singleton, List.not_mem_nil, or_false] at hs
      rcases hs with rfl | rfl | rfl <;>
        simp +decide [Step.good, Step.controlStable, Step.noContention, Step.turnaroundOrdered,
          Access.writesRSRW, Access.raisesRW, Access.drivesBus, Access.apply, Regs.en, Regs.rw,
          Regs.busInput, bsrr_set, bsrr_clear, bsrr_keep, hen, hrw, mode_and_low]
    · rw [replay_append] at hs
      simp only [stepsOf, List.mem_cons, List.mem_singleton, List.not_mem_nil, or_false] at hs
      rcases hs with rfl | rfl <;>
        simp +decide [Step.good, Step.controlStable, Step.noContention, Step.turnaroundOrdered,
          Access.writesRSRW, Access.raisesRW, Access.drivesBus, Access.apply, Regs.en, Regs.rw,
          Regs.busInput, bsrr_set, bsrr_clear, bsrr_keep, ten, trw, tin]
  · rw [readyAccesses]
    exact pulsesClosed_append _ _ (pulsesClosed_append _ _ (by decide) hp₂) (by decide)
  · rw [readyAccesses, replay_append, replay_append]
    generalize replay (replay r [.GPIOC_MODER_and 0xFFFF0000, .GPIOB_BSRR 0x200000,
      .GPIOB_BSRR 0x40]) (pollCycles w) = r₂ at ten trw tin ⊢
    simp +decide [Idle, replay, Access.apply, Regs.en, Regs.rw, Regs.busOutput, bsrr_set,
      bsrr_clear, bsrr_keep, ten, mode_or_low, tin]

theorem GoodFrom.andThen {r : Regs} {l₁ l₂ : List Access} (h₁ : GoodFrom r l₁)
    (f : ∀ r', Idle r' → GoodFrom r' l₂) : GoodFrom r (l₁ ++ l₂) :=
  h₁.append (f _ h₁.2.2)

theorem initAccesses_eq (w₁ w₂ w₃ w₄ : List Nat) :
    initAccesses w₁ w₂ w₃ w₄ = portsAccesses ++ initRest w₁ w₂ w₃ w₄ := by
  simp [initAccesses, initRest, List.append_assoc]

theorem portsAccesses_eq : portsAccesses = portsHead ++ portsTail := rfl

theorem Idle_after_ports (r : Regs) : Idle (replay r portsAccesses) := by
  obtain ⟨h1, _, _, h4, h5⟩ := replay_portsAccesses r
  refine ⟨h5, h4, ?_⟩
  rw [Regs.busOutput, h1, mode_or_low, mode_and_low]; rfl

theorem GoodFrom.initRest {r : Regs} (h : Idle r) (w₁ w₂ w₃ w₄ : List Nat) :
    GoodFrom r (initRest w₁ w₂ w₃ w₄) :=
  (((((((((((((GoodFrom.delay h 30).andThen
    (fun _ h => .command h 0x30)).andThen
    (fun _ h => .delay h 10)).andThen
    (fun _ h => .command h 0x30)).andThen
    (fun _ h => .delay h 1)).andThen
    (fun _ h => .command h 0x30)).andThen
    (fun _ h => .ready h w₁)).andThen
    (fun _ h => .command h 0x38)).andThen
    (fun _ h => .ready h w₂)).andThen
    (fun _ h => .command h 0x06)).andThen
    (fun _ h => .ready h w₃)).andThen
    (fun _ h => .command h 0x01)).andThen
    (fun _ h => .ready h w₄)).andThen
    (fun _ h => .command h 0x0F)

theorem GoodFrom.body {r : Regs} (h : Idle r) (w₁ w₂ w₃ w₄ w₅ w₆ : List Nat) :
    GoodFrom r (bodyAccesses w₁ w₂ w₃ w₄ w₅ w₆) :=
  (((((((((((((GoodFrom.ready h w₁).andThen
    (fun _ h => .data h 0x48)).andThen
    (fun _ h => .ready h w₂)).andThen
    (fun _ h => .data h 0x65)).andThen
    (fun _ h => .ready h w₃)).andThen
    (fun _ h => .data h 0x6C)).andThen
    (fun _ h => .ready h w₄)).andThen
    (fun _ h => .data h 0x6C)).andThen
    (fun _ h => .ready h w₅)).andThen
    (fun _ h => .data h 0x6F)).andThen
    (fun _ h => .delay h 500)).andThen
    (fun _ h => .ready h w₆)).andThen
    (fun _ h => .command h 0x01)).andThen
    (fun _ h => .delay h 500)

/-! ## The transfers latched by the blocks of accesses -/

theorem latched_append (l₁ l₂ : List Step) : latched (l₁ ++ l₂) = latched l₁ ++ latched l₂ := by
  induction l₁ with
  | nil => rfl
  | cons s l ih =>
    show latched (s :: (l ++ l₂)) = latched (s :: l) ++ latched l₂
    simp only [latched]
    split <;> simp [ih]

theorem latched_stepsOf_append (r : Regs) (l₁ l₂ : List Access) :
    latched (stepsOf r (l₁ ++ l₂)) =
      latched (stepsOf r l₁) ++ latched (stepsOf (replay r l₁) l₂) := by
  rw [stepsOf_append, latched_append]

theorem latched_pollCycles (w : List Nat) (r : Regs) (h : r.rw = true) :
    latched (stepsOf r (pollCycles w)) = [] := by
  induction w generalizing r with
  | nil => rfl
  | cons v w ih =>
    simp only [Regs.rw] at h
    have hnext : (replay r (pollCycle v)).rw = true := by
      rw [replay_pollCycle]
      simp +decide [Regs.rw, bsrr_set, bsrr_clear, bsrr_keep, h]
    rw [pollCycles, latched_stepsOf_append, ih _ hnext]
    simp +decide [pollCycle, stepsOf, latched, Access.assertsEN, Access.apply, Regs.rw, bsrr_set,
      bsrr_clear, bsrr_keep, EN, h]

theorem latched_readyAccesses (w : List Nat) (r : Regs) :
    latched (stepsOf r (readyAccesses w)) = [] := by
  have hrw : (replay r [.GPIOC_MODER_and 0xFFFF0000, .GPIOB_BSRR 0x200000,
      .GPIOB_BSRR 0x40]).rw = true := by
    simp +decide [replay, Access.apply, Regs.rw, bsrr_set, bsrr_clear, bsrr_keep]
  rw [readyAccesses, latched_stepsOf_append, latched_stepsOf_append, latched_pollCycles w _ hrw]
  simp +decide [stepsOf, latched, Access.assertsEN]

theorem latched_commandCycle (c : Nat) (r : Regs) :
    latched (stepsOf r (commandCycle c)) = [(false, c % 256)] := by
  simp +decide [commandCycle, stepsOf, latched, Access.assertsEN, Access.apply, Regs.rw, Regs.rs,
    Regs.bus, bsrr_set, bsrr_clear, bsrr_keep]

theorem latched_dataCycle (d : Nat) (r : Regs) :
    latched (stepsOf r (dataCycle d)) = [(true, d % 256)] := by
  simp +decide [dataCycle, stepsOf, latched, Access.assertsEN, Access.apply, Regs.rw, Regs.rs,
    Regs.bus, bsrr_set, bsrr_clear, bsrr_keep]

theorem latched_delay (n : Int) (r : Regs) : latched (stepsOf r [.delayMs n]) = [] := by
  simp [stepsOf, latched, Access.assertsEN]

theorem latched_portsAccesses (r : Regs) : latched (stepsOf r portsAccesses) = [] := by
  simp +decide [portsAccesses, stepsOf, latched, Access.assertsEN]

theorem latched_initAccesses (w₁ w₂ w₃ w₄ : List Nat) (r : Regs) :
    latched (stepsOf r (initAccesses w₁ w₂ w₃ w₄)) =
      [(false, 0x30), (false, 0x30), (false, 0x30), (false, 0x38), (false, 0x06),
        (false, 0x01), (false, 0x0F)] := by
  simp only [initAccesses, latched_stepsOf_append, latched_readyAccesses, latched_commandCycle,
    latched_delay, latched_portsAccesses]
  rfl

theorem latched_bodyAccesses (w₁ w₂ w₃ w₄ w₅ w₆ : List Nat) (r : Regs) :
    latched (stepsOf r (bodyAccesses w₁ w₂ w₃ w₄ w₅ w₆)) = helloThenClear := by
  simp only [bodyAccesses, latched_stepsOf_append, latched_readyAccesses, latched_commandCycle,
    latched_dataCycle, latched_delay]
  rfl

/-! ## The loop of `main` and `main` as runs of accesses -/

theorem stepsOf_length (r : Regs) (l : List Access) : (stepsOf r l).length = l.length := by
  induction l generalizing r with
  | nil => rfl
  | cons a l ih => simp [stepsOf, ih]

theorem Runs.drop_append {m m' : Machine} (l₁ : List Access) {l₂ : List Access}
    (h : Runs m (l₁ ++ l₂) m') :
    m'.log.drop (m.log.length + l₁.length) = stepsOf (replay m.regs l₁) l₂ := by
  rw [h.log, stepsOf_append, ← List.append_assoc]
  exact List.drop_left' (by simp [stepsOf_length])

theorem main_body_runs (sc : Bool) (fuel : Nat) (m m' : Machine)
    (h : main_body sc fuel m = some m') :
    ∃ w₁ w₂ w₃ w₄ w₅ w₆, Runs m (bodyAccesses w₁ w₂ w₃ w₄ w₅ w₆) m' := by
  obtain ⟨k₁, k₂, k₃, k₄, k₅, k₆, _, _, _, _, _, _, _, _, _, hruns⟩ :=
    main_body_spec sc fuel m m' h
  exact ⟨_, _, _, _, _, _, hruns⟩

theorem LCD_init_runs (sc : Bool) (fuel : Nat) (m m' : Machine)
    (h : LCD_init sc fuel m = some m') :
    ∃ w₁ w₂ w₃ w₄, Runs m (initAccesses w₁ w₂ w₃ w₄) m' := by
  obtain ⟨k₁, k₂, k₃, k₄, _, _, _, _, _, _, hruns⟩ := LCD_init_spec sc fuel m m' h
  exact ⟨_, _, _, _, hruns⟩

theorem main_loop_spec (sc : Bool) (fuel : Nat) : ∀ (n : Nat) (m m' : Machine),
    main_loop sc fuel n m = some m' →
    ∃ L, Runs m L m' ∧ (Idle m.regs → GoodFrom m.regs L) ∧
      latched (stepsOf m.regs L) = iterated helloThenClear n := by
  intro n
  induction n with
  | zero =>
    intro m m' h
    cases h
    exact ⟨[], Runs.refl m, GoodFrom.nil, rfl⟩
  | succ n ih =>
    intro m m' h
    simp only [main_loop] at h
    cases hb : main_body sc fuel m with
    | none => rw [hb] at h; cases h
    | some m₁ =>
      rw [hb] at h
      obtain ⟨w₁, w₂, w₃, w₄, w₅, w₆, hruns⟩ := main_body_runs sc fuel m m₁ hb
      obtain ⟨L, hL, hgood, hlat⟩ := ih m₁ m' h
      rw [hruns.regs] at hgood hlat
      have hbody : Idle m.regs → GoodFrom m.regs (bodyAccesses w₁ w₂ w₃ w₄ w₅ w₆) :=
        fun hidle => GoodFrom.body hidle w₁ w₂ w₃ w₄ w₅ w₆
      refine ⟨bodyAccesses w₁ w₂ w₃ w₄ w₅ w₆ ++ L, hruns.trans hL,
        fun hidle => (hbody hidle).append (hgood (hbody hidle).2.2), ?_⟩
      rw [latched_stepsOf_append, latched_bodyAccesses, hlat]
      rfl

theorem main_spec (sc : Bool) (fuel n : Nat) (m m' : Machine)
    (h : main sc fuel n m = some m') :
    ∃ L, Runs m (portsAccesses ++ L) m' ∧ GoodFrom (replay m.regs portsAccesses) L ∧
      latched (stepsOf (replay m.regs portsAccesses) L) =
        [(false, 0x30), (false, 0x30), (false, 0x30), (false, 0x38), (false, 0x06),
          (false, 0x01), (false, 0x0F)] ++ iterated helloThenClear n := by
  simp only [main] at h
  cases hi : LCD_init sc fuel m with
  | none => rw [hi] at h; cases h
  | some m₁ =>
    rw [hi] at h
    obtain ⟨w₁, w₂, w₃, w₄, hruns⟩ := LCD_init_runs sc fuel m m₁ hi
    obtain ⟨L, hL, hgood, hlat⟩ := main_loop_spec sc fuel n m₁ m' h
    rw [initAccesses_eq] at hruns
    rw [hruns.regs, replay_append] at hgood hlat
    have hinit : GoodFrom (replay m.regs portsAccesses) (initRest w₁ w₂ w₃ w₄) :=
      GoodFrom.initRest (Idle_after_ports m.regs) w₁ w₂ w₃ w₄
    have hlatinit := latched_initAccesses w₁ w₂ w₃ w₄ m.regs
    rw [initAccesses_eq, latched_stepsOf_append, latched_portsAccesses, List.nil_append]
      at hlatinit
    refine ⟨initRest w₁ w₂ w₃ w₄ ++ L, (hruns.trans hL).cast (List.append_assoc _ _ _),
      hinit.append (hgood hinit.2.2), ?_⟩
    rw [latched_stepsOf_append, hlat, hlatinit]

/-- Every operation of the program returns with EN low. -/
theorem en_low_on_return (sc : Bool) :
    (∀ m₀, (PORTS_init m₀).regs.en = false) ∧
    (∀ c m₀, (LCD_command_noPoll c m₀).regs.en = false) ∧
    (∀ fuel m₀ m₁, LCD_ready sc fuel m₀ = some m₁ → m₁.regs.en = false) ∧
    (∀ fuel c m₀ m₁, LCD_command sc fuel c m₀ = some m₁ → m₁.regs.en = false) ∧
    (∀ fuel d m₀ m₁, LCD_data sc fuel d m₀ = some m₁ → m₁.regs.en = false) ∧
    (∀ fuel m₀ m₁, LCD_init sc fuel m₀ = some m₁ → m₁.regs.en = false) := by
  refine ⟨fun m₀ => ?_, fun c m₀ => ?_, fun fuel m₀ m₁ h => ?_, fun fuel c m₀ m₁ h => ?_,
    fun fuel d m₀ m₁ h => ?_, fun fuel m₀ m₁ h => ?_⟩
  · rw [(PORTS_init_runs m₀).regs]
    exact (replay_portsAccesses _).2.2.2.2
  · rw [(LCD_command_noPoll_runs c m₀).regs]
    exact (replay_commandCycle _ _).2.2.2.2.2.2
  · obtain ⟨k, _, _, hr⟩ := (LCD_ready_spec sc fuel m₀).1 m₁ h
    rw [hr.regs]
    exact (replay_readyAccesses _ (samples_ne_nil _ _ _) _).2.2.2.2.2.2
  · obtain ⟨k, _, _, hr⟩ := LCD_command_spec sc fuel c m₀ m₁ h
    rw [hr.regs, replay_append]
    exact (replay_commandCycle _ _).2.2.2.2.2.2
  · obtain ⟨k, _, _, hr⟩ := LCD_data_spec sc fuel d m₀ m₁ h
    rw [hr.regs, replay_append]
    exact (replay_dataCycle _ _).2.2.2.2.2.2
  · obtain ⟨k₁, k₂, k₃, k₄, _, _, _, _, _, _, hr⟩ := LCD_init_spec sc fuel m₀ m₁ h
    rw [hr.regs, initAccesses, replay_append]
    exact (replay_commandCycle _ _).2.2.2.2.2.2

/-- The accesses of each operation of the program. -/
theorem accesses_of_operations (sc : Bool) :
    (∀ m₀, accesses ((PORTS_init m₀).log.drop m₀.log.length) = portsAccesses) ∧
    (∀ n m₀, accesses ((delayMs n m₀).log.drop m₀.log.length) = [.delayMs n]) ∧
    (∀ c m₀, accesses ((LCD_command_noPoll c m₀).log.drop m₀.log.length) =
      commandCycle (c % 256)) ∧
    (∀ fuel m₀ m₁, LCD_ready sc fuel m₀ = some m₁ → ∃ k, busyFor m₀.idr m₀.reads k ∧
      accesses (m₁.log.drop m₀.log.length) = readyAccesses (samples m₀.idr m₀.reads (k + 1))) ∧
    (∀ fuel c m₀ m₁, LCD_command sc fuel c m₀ = some m₁ → ∃ k, busyFor m₀.idr m₀.reads k ∧
      accesses (m₁.log.drop m₀.log.length) =
        readyAccesses (samples m₀.idr m₀.reads (k + 1)) ++ commandCycle (c % 256)) ∧
    (∀ fuel d m₀ m₁, LCD_data sc fuel d m₀ = some m₁ → ∃ k, busyFor m₀.idr m₀.reads k ∧
      accesses (m₁.log.drop m₀.log.length) =
        readyAccesses (samples m₀.idr m₀.reads (k + 1)) ++ dataCycle (charValue sc d)) := by
  refine ⟨fun m₀ => (PORTS_init_runs m₀).newAccesses, fun n m₀ => (delayMs_runs n m₀).newAccesses,
    fun c m₀ => (LCD_command_noPoll_runs c m₀).newAccesses, fun fuel m₀ m₁ h => ?_,
    fun fuel c m₀ m₁ h => ?_, fun fuel d m₀ m₁ h => ?_⟩
  · obtain ⟨k, _, hb, hr⟩ := (LCD_ready_spec sc fuel m₀).1 m₁ h
    exact ⟨k, hb, hr.newAccesses⟩
  · obtain ⟨k, _, hb, hr⟩ := LCD_command_spec sc fuel c m₀ m₁ h
    exact ⟨k, hb, hr.newAccesses⟩
  · obtain ⟨k, _, hb, hr⟩ := LCD_data_spec sc fuel d m₀ m₁ h
    exact ⟨k, hb, hr.newAccesses⟩

theorem eventuallyReady_busyThenReady (n : Nat) : EventuallyReady (busyThenReady n) := by
  intro p
  refine ⟨n, ?_⟩
  have : ¬ p + n < n := by omega
  simp [busyThenReady, this]

/-- C1: the accesses of `LCD_init` are, in order, those of `PORTS_init`,
`delayMs(30)`, `LCD_command_noPoll(0x30)`, `delayMs(10)`,
`LCD_command_noPoll(0x30)`, `delayMs(1)`, `LCD_command_noPoll(0x30)`, and then
those of `LCD_command(0x38)`, `LCD_command(0x06)`, `LCD_command(0x01)` and
`LCD_command(0x0F)`, each a readiness wait (polling until the first sample with
bit 7 clear) followed by the write cycle. The commands transferred are three
times `0x30` and then `0x38, 0x06, 0x01, 0x0F`, all with R/S low. On a stream on
which every poll eventually reads bit 7 clear, `LCD_init` returns. -/
theorem LCD_init_trace (sc : Bool) (m : Machine) :
    (∀ fuel m', LCD_init sc fuel m = some m' →
      ∃ k₁ k₂ k₃ k₄,
        busyFor m.idr m.reads k₁ ∧
        busyFor m.idr (m.reads + (k₁ + 1)) k₂ ∧
        busyFor m.idr (m.reads + (k₁ + 1) + (k₂ + 1)) k₃ ∧
        busyFor m.idr (m.reads + (k₁ + 1) + (k₂ + 1) + (k₃ + 1)) k₄ ∧
        m'.reads = m.reads + (k₁ + 1) + (k₂ + 1) + (k₃ + 1) + (k₄ + 1) ∧
        accesses (m'.log.drop m.log.length) =
          portsAccesses ++ [.delayMs 30] ++ commandCycle 0x30
            ++ [.delayMs 10] ++ commandCycle 0x30
            ++ [.delayMs 1] ++ commandCycle 0x30
            ++ readyAccesses (samples m.idr m.reads (k₁ + 1)) ++ commandCycle 0x38
            ++ readyAccesses (samples m.idr (m.reads + (k₁ + 1)) (k₂ + 1)) ++ commandCycle 0x06
            ++ readyAccesses (samples m.idr (m.reads + (k₁ + 1) + (k₂ + 1)) (k₃ + 1))
            ++ commandCycle 0x01
            ++ readyAccesses (samples m.idr (m.reads + (k₁ + 1) + (k₂ + 1) + (k₃ + 1)) (k₄ + 1))
            ++ commandCycle 0x0F ∧
        latched (m'.log.drop m.log.length) =
          [(false, 0x30), (false, 0x30), (false, 0x30), (false, 0x38), (false, 0x06),
            (false, 0x01), (false, 0x0F)]) ∧
    (EventuallyReady m.idr → ∃ F, ∀ fuel, F ≤ fuel → (LCD_init sc fuel m).isSome = true) := by
  refine ⟨fun fuel m' h => ?_, fun h => ?_⟩
  · obtain ⟨k₁, k₂, k₃, k₄, _, hb₁, hb₂, hb₃, hb₄, hreads, hruns⟩ := LCD_init_spec sc fuel m m' h
    refine ⟨k₁, k₂, k₃, k₄, hb₁, hb₂, hb₃, hb₄, hreads, hruns.newAccesses, ?_⟩
    rw [hruns.newSteps, latched_initAccesses]
  · obtain ⟨m', hr, _⟩ := LCD_init_Returns sc m h
    exact hr.isSome

/-- C1, an instance: a controller that reads busy once after reset. -/
theorem LCD_init_trace_witness :
    (∃ m', LCD_init false 2 (Machine.start (busyThenReady 1)) = some m' ∧
      latched (m'.log.drop 0) =
        [(false, 0x30), (false, 0x30), (false, 0x30), (false, 0x38), (false, 0x06),
          (false, 0x01), (false, 0x0F)]) ∧
    EventuallyReady (busyThenReady 1) ∧
    ∃ F, ∀ fuel, F ≤ fuel →
      (LCD_init false fuel (Machine.start (busyThenReady 1))).isSome = true :=
  ⟨⟨_, rfl, by
      obtain ⟨_, _, _, _, _, _, _, _, _, _, h⟩ :=
        (LCD_init_trace false (Machine.start (busyThenReady 1))).1 2 _ rfl
      exact h⟩,
    eventuallyReady_busyThenReady 1,
    (LCD_init_trace false (Machine.start (busyThenReady 1))).2 (eventuallyReady_busyThenReady 1)⟩

/-- C6: one iteration of the loop of `main`, from any state, consists of five
calls of `LCD_data` for the bytes `0x48, 0x65, 0x6C, 0x6C, 0x6F` ("Hello"), each a
readiness wait followed by the data write cycle, then `delayMs(500)`, then
`LCD_command(0x01)` with its readiness wait, then `delayMs(500)`. The transfers
made are the five characters with R/S high and then `0x01` with R/S low, and
nothing else; the first `n` iterations make `n` times these six transfers. On a
stream on which every poll eventually reads bit 7 clear the first `n`
iterations complete, for every `n`. -/
theorem main_loop_hello (sc : Bool) (m : Machine) :
    (∀ fuel m', main_body sc fuel m = some m' →
      ∃ k₁ k₂ k₃ k₄ k₅ k₆,
        busyFor m.idr m.reads k₁ ∧
        busyFor m.idr (m.reads + (k₁ + 1)) k₂ ∧
        busyFor m.idr (m.reads + (k₁ + 1) + (k₂ + 1)) k₃ ∧
        busyFor m.idr (m.reads + (k₁ + 1) + (k₂ + 1) + (k₃ + 1)) k₄ ∧
        busyFor m.idr (m.reads + (k₁ + 1) + (k₂ + 1) + (k₃ + 1) + (k₄ + 1)) k₅ ∧
        busyFor m.idr (m.reads + (k₁ + 1) + (k₂ + 1) + (k₃ + 1) + (k₄ + 1) + (k₅ + 1)) k₆ ∧
        accesses (m'.log.drop m.log.length) =
          readyAccesses (samples m.idr m.reads (k₁ + 1)) ++ dataCycle 0x48
            ++ readyAccesses (samples m.idr (m.reads + (k₁ + 1)) (k₂ + 1)) ++ dataCycle 0x65
            ++ readyAccesses (samples m.idr (m.reads + (k₁ + 1) + (k₂ + 1)) (k₃ + 1))
            ++ dataCycle 0x6C
            ++ readyAccesses (samples m.idr (m.reads + (k₁ + 1) + (k₂ + 1) + (k₃ + 1)) (k₄ + 1))
            ++ dataCycle 0x6C
            ++ readyAccesses (samples m.idr
                (m.reads + (k₁ + 1) + (k₂ + 1) + (k₃ + 1) + (k₄ + 1)) (k₅ + 1))
            ++ dataCycle 0x6F
            ++ [.delayMs 500]
            ++ readyAccesses (samples m.idr
                (m.reads + (k₁ + 1) + (k₂ + 1) + (k₃ + 1) + (k₄ + 1) + (k₅ + 1)) (k₆ + 1))
            ++ commandCycle 0x01
            ++ [.delayMs 500] ∧
        latched (m'.log.drop m.log.length) = helloThenClear) ∧
    (∀ fuel n m', main_loop sc fuel n m = some m' →
      latched (m'.log.drop m.log.length) = iterated helloThenClear n) ∧
    helloThenClear = "Hello".toList.map (fun ch => (true, ch.toNat)) ++ [(false, 0x01)] ∧
    (EventuallyReady m.idr →
      ∀ n, ∃ F, ∀ fuel, F ≤ fuel → (main_loop sc fuel n m).isSome = true) := by
  refine ⟨fun fuel m' h => ?_, fun fuel n m' h => ?_, by decide, fun h n => ?_⟩
  · obtain ⟨k₁, k₂, k₃, k₄, k₅, k₆, _, hb₁, hb₂, hb₃, hb₄, hb₅, hb₆, _, _, hruns⟩ :=
      main_body_spec sc fuel m m' h
    refine ⟨k₁, k₂, k₃, k₄, k₅, k₆, hb₁, hb₂, hb₃, hb₄, hb₅, hb₆, hruns.newAccesses, ?_⟩
    rw [hruns.newSteps, latched_bodyAccesses]
  · obtain ⟨L, hL, _, hlat⟩ := main_loop_spec sc fuel n m m' h
    rw [hL.newSteps, hlat]
  · obtain ⟨m', hr, _⟩ := main_loop_Returns sc n m h
    exact hr.isSome

/-- C6, an instance: two iterations on a controller that reads busy once. -/
theorem main_loop_hello_witness :
    (∃ m', main_loop false 2 2 (Machine.start (busyThenReady 1)) = some m' ∧
      latched (m'.log.drop 0) = iterated helloThenClear 2) ∧
    EventuallyReady (busyThenReady 1) ∧
    ∀ n, ∃ F, ∀ fuel, F ≤ fuel →
      (main_loop false fuel n (Machine.start (busyThenReady 1))).isSome = true :=
  ⟨⟨_, rfl, (main_loop_hello false (Machine.start (busyThenReady 1))).2.1 2 2 _ rfl⟩,
    eventuallyReady_busyThenReady 1,
    (main_loop_hello false (Machine.start (busyThenReady 1))).2.2.2
      (eventuallyReady_busyThenReady 1)⟩

/-- A call of `LCD_ready` turns the bus around in the safe order from any state. -/
theorem ready_turnaround (w : List Nat) (r : Regs) :
    ∀ s ∈ stepsOf r (readyAccesses w), s.turnaroundOrdered := by
  have hpoll : ∀ (w : List Nat) (r : Regs), ∀ s ∈ stepsOf r (pollCycles w),
      s.turnaroundOrdered := by
    intro w
    induction w with
    | nil => intro r s hs; simp [pollCycles, stepsOf] at hs
    | cons v w ih =>
      intro r
      rw [pollCycles, mem_stepsOf_append]
      refine ⟨fun s hs => ?_, ih _⟩
      simp only [pollCycle, stepsOf, List.mem_cons, List.mem_singleton, List.not_mem_nil,
        or_false] at hs
      rcases hs with rfl | rfl | rfl | rfl | rfl <;>
        simp +decide [Step.turnaroundOrdered, Access.raisesRW, Access.drivesBus, EN]
  rw [readyAccesses, mem_stepsOf_append, mem_stepsOf_append]
  refine ⟨⟨fun s hs => ?_, hpoll w _⟩, fun s hs => ?_⟩
  · simp only [stepsOf, List.mem_cons, List.mem_singleton, List.not_mem_nil, or_false] at hs
    rcases hs with rfl | rfl | rfl <;>
      simp +decide [Step.turnaroundOrdered, Access.raisesRW, Access.drivesBus, Access.apply,
        Regs.busInput, mode_and_low]
  · simp only [stepsOf, List.mem_cons, List.mem_singleton, List.not_mem_nil, or_false] at hs
    rcases hs with rfl | rfl <;>
      simp +decide [Step.turnaroundOrdered, Access.raisesRW, Access.drivesBus, Access.apply,
        Regs.rw, bsrr_set, bsrr_clear, bsrr_keep]

theorem main_drop_four (sc : Bool) (fuel n : Nat) (m m' : Machine)
    (h : main sc fuel n m = some m') :
    ∃ L, GoodFrom (replay m.regs portsAccesses) L ∧
      m'.log.drop (m.log.length + 3) =
        stepsOf (replay m.regs [.RCC_AHB1ENR_or 0x06, .GPIOB_MODER_and 0xFFFF03FF,
          .GPIOB_MODER_or 0x5400]) (.GPIOB_BSRR 0xC00000 :: (portsTail ++ L)) ∧
      m'.log.drop (m.log.length + 4) = stepsOf (replay m.regs portsHead) (portsTail ++ L) ∧
      m'.log.drop (m.log.length + 6) = stepsOf (replay m.regs portsAccesses) L ∧
      m'.regs = replay (replay m.regs portsAccesses) L := by
  obtain ⟨L, hruns, hgood, _⟩ := main_spec sc fuel n m m' h
  refine ⟨L, hgood, ?_, ?_, ?_, ?_⟩
  · exact Runs.drop_append [.RCC_AHB1ENR_or 0x06, .GPIOB_MODER_and 0xFFFF03FF,
      .GPIOB_MODER_or 0x5400] (hruns.cast rfl)
  · exact Runs.drop_append portsHead (hruns.cast rfl)
  · exact Runs.drop_append portsAccesses hruns
  · rw [hruns.regs, replay_append]

/-- C8: in every execution of `main` (`LCD_init`, then any number of iterations
of the loop), the fourth access is the write of `PORTS_init` that turns EN off,
and from there on: every write that sets or clears R/S or R/W is made with EN
low; every access that drives EN high is followed by one that drives EN low
with no write of R/S or R/W in between; and the execution, like every
operation of the program from any state, ends with EN low. On a stream on
which every poll eventually reads bit 7 clear the execution reaches the end of
the `n`-th iteration. -/
theorem control_lines_stable (sc : Bool) (n : Nat) (m : Machine) :
    (∀ fuel m', main sc fuel n m = some m' →
      (m'.log.drop (m.log.length + 3)).head?.map (fun s => (s.acc, s.post.en)) =
        some (.GPIOB_BSRR 0xC00000, false) ∧
      (∀ s ∈ m'.log.drop (m.log.length + 4), s.acc.writesRSRW = true → s.pre.en = false) ∧
      pulsesClosed (accesses (m'.log.drop (m.log.length + 4))) = true ∧
      m'.regs.en = false) ∧
    ((∀ m₀, (PORTS_init m₀).regs.en = false) ∧
      (∀ c m₀, (LCD_command_noPoll c m₀).regs.en = false) ∧
      (∀ fuel m₀ m₁, LCD_ready sc fuel m₀ = some m₁ → m₁.regs.en = false) ∧
      (∀ fuel c m₀ m₁, LCD_command sc fuel c m₀ = some m₁ → m₁.regs.en = false) ∧
      (∀ fuel d m₀ m₁, LCD_data sc fuel d m₀ = some m₁ → m₁.regs.en = false) ∧
      (∀ fuel m₀ m₁, LCD_init sc fuel m₀ = some m₁ → m₁.regs.en = false)) ∧
    (EventuallyReady m.idr → ∃ F, ∀ fuel, F ≤ fuel → (main sc fuel n m).isSome = true) := by
  refine ⟨fun fuel m' h => ?_, en_low_on_return sc, fun h => ?_⟩
  · obtain ⟨L, hgood, h3, h4, _, hregs⟩ := main_drop_four sc fuel n m m' h
    refine ⟨?_, ?_, ?_, ?_⟩
    · rw [h3]
      simp +decide [stepsOf, Access.apply, Regs.en, bsrr_set, bsrr_clear, bsrr_keep]
    · rw [h4, mem_stepsOf_append]
      refine ⟨fun s hs => ?_, fun s hs => (hgood.1 s hs).1⟩
      simp only [portsTail, stepsOf, List.mem_cons, List.mem_singleton, List.not_mem_nil,
        or_false] at hs
      rcases hs with rfl | rfl <;> simp [Access.writesRSRW]
    · rw [h4, accesses_stepsOf]
      exact pulsesClosed_append _ _ (by decide) hgood.2.1
    · rw [hregs]
      exact hgood.2.2.1
  · obtain ⟨m', hr⟩ := main_Returns sc n m h
    exact hr.isSome

/-- C8, an instance: `main` through two iterations of its loop, from a state
with EN, R/W and R/S high. -/
theorem control_lines_stable_witness :
    (∃ m', main false 2 2 (Machine.inputMode (busyThenReady 1)) = some m' ∧
      (m'.log.drop (0 + 3)).head?.map (fun s => (s.acc, s.post.en)) =
        some (.GPIOB_BSRR 0xC00000, false) ∧
      (∀ s ∈ m'.log.drop (0 + 4), s.acc.writesRSRW = true → s.pre.en = false) ∧
      pulsesClosed (accesses (m'.log.drop (0 + 4))) = true ∧
      m'.regs.en = false) ∧
    EventuallyReady (busyThenReady 1) ∧
    ∃ F, ∀ fuel, F ≤ fuel →
      (main false fuel 2 (Machine.inputMode (busyThenReady 1))).isSome = true :=
  ⟨⟨_, rfl, (control_lines_stable false 2 (Machine.inputMode (busyThenReady 1))).1 2 _ rfl⟩,
    eventuallyReady_busyThenReady 1,
    (control_lines_stable false 2 (Machine.inputMode (busyThenReady 1))).2.2
      (eventuallyReady_busyThenReady 1)⟩

/-- C10: in every execution of `main`, after the six accesses of `PORTS_init`,
before and after every access the pins PC0-PC7 are inputs whenever R/W is high,
so they are never outputs while R/W is high; R/W is raised only when the pins
are already inputs and the pins are switched to output only when R/W is already
low, as `LCD_ready` does from any state. R/W is raised by no access of
`PORTS_init`, `delayMs` or `LCD_command_noPoll`, and by none of `LCD_command`
and `LCD_data` after their call of `LCD_ready` has returned. On a stream on
which every poll eventually reads bit 7 clear the execution reaches the end of
the `n`-th iteration. -/
theorem no_bus_contention (sc : Bool) (n : Nat) (m : Machine) :
    (∀ fuel m', main sc fuel n m = some m' →
      accesses ((m'.log.drop m.log.length).take 6) = portsAccesses ∧
      ∀ s ∈ m'.log.drop (m.log.length + 6),
        s.noContention ∧ s.turnaroundOrdered ∧
        ¬ (s.pre.rw = true ∧ s.pre.busOutput) ∧ ¬ (s.post.rw = true ∧ s.post.busOutput)) ∧
    ((∀ fuel m₀ m₁, LCD_ready sc fuel m₀ = some m₁ →
        ∀ s ∈ m₁.log.drop m₀.log.length, s.turnaroundOrdered) ∧
      (∀ m₀, ∀ s ∈ (PORTS_init m₀).log.drop m₀.log.length, s.acc.raisesRW = false) ∧
      (∀ k m₀, ∀ s ∈ (delayMs k m₀).log.drop m₀.log.length, s.acc.raisesRW = false) ∧
      (∀ c m₀, ∀ s ∈ (LCD_command_noPoll c m₀).log.drop m₀.log.length,
        s.acc.raisesRW = false) ∧
      (∀ fuel c m₀ m₁ m₂, LCD_ready sc fuel m₀ = some m₁ →
        LCD_command sc fuel c m₀ = some m₂ →
        ∀ s ∈ m₂.log.drop m₁.log.length, s.acc.raisesRW = false) ∧
      (∀ fuel d m₀ m₁ m₂, LCD_ready sc fuel m₀ = some m₁ →
        LCD_data sc fuel d m₀ = some m₂ →
        ∀ s ∈ m₂.log.drop m₁.log.length, s.acc.raisesRW = false)) ∧
    (EventuallyReady m.idr → ∃ F, ∀ fuel, F ≤ fuel → (main sc fuel n m).isSome = true) := by
  have hexcl : ∀ r : Regs, r.busInput → ¬ r.busOutput := by
    intro r hin hout
    rw [Regs.busInput] at hin
    rw [Regs.busOutput, hin] at hout
    cases hout
  refine ⟨fun fuel m' h => ⟨?_, fun s hs => ?_⟩, ⟨fun fuel m₀ m₁ h s hs => ?_,
    fun m₀ s hs => ?_, fun k m₀ s hs => ?_,
    fun c m₀ s hs => ?_, fun fuel c m₀ m₁ m₂ h₁ h₂ s hs => ?_,
    fun fuel d m₀ m₁ m₂ h₁ h₂ s hs => ?_⟩, fun h => ?_⟩
  · obtain ⟨L, hruns, _, _⟩ := main_spec sc fuel n m m' h
    rw [hruns.newSteps, stepsOf_append, List.take_left' (by simp [stepsOf_length, portsAccesses]),
      accesses_stepsOf]
  · obtain ⟨L, hgood, _, _, h6, _⟩ := main_drop_four sc fuel n m m' h
    rw [h6] at hs
    obtain ⟨_, hnc, hord⟩ := hgood.1 s hs
    exact ⟨hnc, hord, fun hh => hexcl _ (hnc.1 hh.1) hh.2, fun hh => hexcl _ (hnc.2 hh.1) hh.2⟩
  · obtain ⟨k, _, _, hr⟩ := (LCD_ready_spec sc fuel m₀).1 m₁ h
    rw [hr.newSteps] at hs
    exact ready_turnaround _ _ s hs
  · rw [(PORTS_init_runs m₀).newSteps] at hs
    simp only [portsAccesses, stepsOf, List.mem_cons, List.mem_singleton, List.not_mem_nil,
      or_false] at hs
    rcases hs with rfl | rfl | rfl | rfl | rfl | rfl <;> simp +decide [Access.raisesRW]
  · rw [(delayMs_runs k m₀).newSteps] at hs
    simp only [stepsOf, List.mem_singleton] at hs
    subst hs
    rfl
  · rw [(LCD_command_noPoll_runs c m₀).newSteps] at hs
    simp only [commandCycle, stepsOf, List.mem_cons, List.mem_singleton, List.not_mem_nil,
      or_false] at hs
    rcases hs with rfl | rfl | rfl | rfl | rfl <;> simp +decide [Access.raisesRW]
  · rw [LCD_command_eq, h₁] at h₂
    cases h₂
    rw [(LCD_command_noPoll_runs c m₁).newSteps] at hs
    simp only [commandCycle, stepsOf, List.mem_cons, List.mem_singleton, List.not_mem_nil,
      or_false] at hs
    rcases hs with rfl | rfl | rfl | rfl | rfl <;> simp +decide [Access.raisesRW]
  · rw [LCD_data_eq, h₁] at h₂
    cases h₂
    rw [(dataWrite_runs sc d m₁).newSteps] at hs
    simp only [dataCycle, stepsOf, List.mem_cons, List.mem_singleton, List.not_mem_nil,
      or_false] at hs
    rcases hs with rfl | rfl | rfl | rfl | rfl | rfl <;> simp +decide [Access.raisesRW]
  · obtain ⟨m', hr⟩ := main_Returns sc n m h
    exact hr.isSome

/-- C10, an instance: `main` through two iterations of its loop, from a state
with port C in input mode and R/W high. -/
theorem no_bus_contention_witness :
    (∃ m', main false 2 2 (Machine.inputMode (busyThenReady 1)) = some m' ∧
      accesses ((m'.log.drop 0).take 6) = portsAccesses ∧
      ∀ s ∈ m'.log.drop (0 + 6),
        s.noContention ∧ s.turnaroundOrdered ∧
        ¬ (s.pre.rw = true ∧ s.pre.busOutput) ∧ ¬ (s.post.rw = true ∧ s.post.busOutput)) ∧
    EventuallyReady (busyThenReady 1) ∧
    ∃ F, ∀ fuel, F ≤ fuel →
      (main false fuel 2 (Machine.inputMode (busyThenReady 1))).isSome = true :=
  ⟨⟨_, rfl, (no_bus_contention false 2 (Machine.inputMode (busyThenReady 1))).1 2 _ rfl⟩,
    eventuallyReady_busyThenReady 1,
    (no_bus_contention false 2 (Machine.inputMode (busyThenReady 1))).2.2
      (eventuallyReady_busyThenReady 1)⟩

end Mazidi
